import Mathlib

/-!
# QTText.c : text samples, chapter tracks and chapter references

A shallow embedding of the parts of `QTText.c` that decide the properties of
the text-sample wire format, the chapter list of a chapter track, the
chapter-list references between the tracks of a movie, the conversion of a C
string to a Pascal string, the samples `QTText_AddTextTrack` adds, the removal
of text tracks and the edit of the current sample.

Conventions of the embedding:

* bytes are natural numbers, a buffer is a `List Nat`;
* a `Str255` is a buffer of 256 bytes, byte 0 holding the length;
* pointers that may be `NULL` are `Option`s;
* a read or write outside a buffer is reported as a fault (`none`, or
  `Outcome.memoryFault`) instead of being given a meaning;
* the calls into the movie toolbox are modelled by small functions on explicit
  state, each one documented where it is defined.
-/

namespace QTText

/-! ## Machine words and byte order -/

/-- Byte order of the machine the program runs on. -/
inductive ByteOrder where
  | big
  | little
  deriving DecidableEq, Repr

/-- The header's `Endian16_Swap`: exchange the two bytes of a 16-bit value. -/
def Endian16_Swap (v : Nat) : Nat :=
  (v % 256) * 256 + (v / 256) % 256

/-- The header's `EndianU16_NtoB`: identity on a big-endian host, a byte swap on a
little-endian one. -/
def EndianU16_NtoB (host : ByteOrder) (v : Nat) : Nat :=
  match host with
  | .big => v % 65536
  | .little => Endian16_Swap v

/-- The header's `EndianU16_BtoN`: identity on a big-endian host, a byte swap on a
little-endian one. -/
def EndianU16_BtoN (host : ByteOrder) (v : Nat) : Nat :=
  match host with
  | .big => v % 65536
  | .little => Endian16_Swap v

/-- The two bytes that memory holds, in address order, for a 16-bit variable of
value `v` on the given host. -/
def storeU16 (host : ByteOrder) (v : Nat) : List Nat :=
  match host with
  | .big => [(v / 256) % 256, v % 256]
  | .little => [v % 256, (v / 256) % 256]

/-- The 16-bit value a host reads from two bytes given in address order. -/
def loadU16 (host : ByteOrder) (b0 b1 : Nat) : Nat :=
  match host with
  | .big => (b0 % 256) * 256 + b1 % 256
  | .little => (b1 % 256) * 256 + b0 % 256

/-- Conversion of a 16-bit pattern to the C type `short`. -/
def toShort (v : Nat) : Int :=
  if v % 65536 < 32768 then ((v % 65536 : Nat) : Int) else ((v % 65536 : Nat) : Int) - 65536

/-- Conversion of an integer to the C type `unsigned char`. -/
def toUChar (v : Int) : Nat :=
  (v % 256).toNat

/-! ## Result codes -/

/-- The `OSErr` values this file returns or receives. -/
inductive OSErr where
  | noErr
  | paramErr
  | invalidTrack
  | badTrackIndex
  | other (code : Int)
  deriving DecidableEq, Repr

/-- The constant `kBogusStartingTime` of `QTText.h`. -/
def kBogusStartingTime : Int := -1

/-- The constant `txtProcDefaultDisplay` of the toolbox headers. -/
def txtProcDefaultDisplay : Int := 0

/-! ## The text procedure and the sample it decodes -/

/-- What `QTText_TextProc` leaves behind: the global `gSampleText`, the display flag
stored through `theDisplayFlag`, and the function result. -/
structure TextProcOut where
  gSampleText : List Nat
  theDisplayFlag : Int
  result : OSErr
  deriving DecidableEq, Repr

/-- The copy loop of `QTText_TextProc`:
`for (myIndex = 1; myIndex <= myTextSize; myIndex++, myTextPtr++) gSampleText[myIndex] = *myTextPtr;`
The first argument counts the iterations that remain; `myTextPtr` is always
`*theText + 2 + (myIndex - 1)`. A write outside the 256 bytes of `gSampleText` or a read
outside the sample is a fault. -/
def textProcLoop (theText : List Nat) (myTextSize : Int) :
    Nat → Nat → List Nat → Option (List Nat)
  | 0, _, g => some g
  | k + 1, myIndex, g =>
    if (myIndex : Int) ≤ myTextSize then
      if myIndex < 256 then
        match theText[myIndex + 1]? with
        | some c => textProcLoop theText myTextSize k (myIndex + 1) (g.set myIndex c)
        | none => none
      else none
    else some g

/-- The function `QTText_TextProc`: decode the sample `theText` (a handle to the sample data) into the
global `gSampleText`. `none` is a fault (sample shorter than two bytes, or one of the
faults of the copy loop). -/
def QTText_TextProc (host : ByteOrder) (theText : List Nat) (gSampleText : List Nat) :
    Option TextProcOut :=
  match theText with
  | b0 :: b1 :: _ =>
    let myTextSize : Int := toShort (EndianU16_BtoN host (loadU16 host b0 b1))
    match textProcLoop theText myTextSize myTextSize.toNat 1 gSampleText with
    | some g =>
      some { gSampleText := g.set 0 (toUChar myTextSize),
             theDisplayFlag := txtProcDefaultDisplay,
             result := OSErr.noErr }
    | none => none
  | _ => none

/-- The sample `QTText_AddTextTrack` builds from the Pascal string `mySampleText` when
`USE_ADDMEDIASAMPLE` is set: `myLength = EndianU16_NtoB(mySampleText[0])`, then
`PtrToHand(&myLength, &mySample, 2)` and
`PtrAndHand(&mySampleText[1], mySample, mySampleText[0])`. -/
def QTText_AddTextTrack_sample (host : ByteOrder) (mySampleText : List Nat) : List Nat :=
  let myLength := EndianU16_NtoB host (mySampleText.headD 0)
  storeU16 host myLength ++ (mySampleText.drop 1).take (mySampleText.headD 0)

/-! ## Chapter tracks: the samples of a text track -/

/-- One media sample of a text track: where it starts on the track, how long it lasts,
and the sample data as `GetMediaSample` returns it (for text media a 16-bit length word,
the text, and possibly style atoms after it). -/
structure TextSample where
  startTime : Int
  duration : Int
  data : List Nat
  deriving DecidableEq, Repr

/-- A text track that is not `NULL`, as the toolbox shows it to this file: its samples in
track order, and the error `GetMoviesError` reports after a call of
`GetTrackNextInterestingTime` with the given flags and time (left uninterpreted). -/
structure TextTrack where
  samples : List TextSample
  moviesError : Nat → Int → OSErr

/-- The flag `nextTimeMediaSample` of the toolbox headers. -/
def nextTimeMediaSample : Nat := 1

/-- The flag `nextTimeEdgeOK` of the toolbox headers. -/
def nextTimeEdgeOK : Nat := 16384

/-- The toolbox call `GetTrackNextInterestingTime (track, flags, time, fixed1, &t, NULL)`,
a forward search over media samples: the start of the first sample at or after `time`
when `nextTimeEdgeOK` is among the flags, of the first sample strictly after `time`
otherwise, and -1 when there is none. The search is applied to a negative `time` as to any
other; the source never says what the toolbox does there, and only the walk of
`QTText_GetIndChapterTime` beyond one past the last chapter depends on it. -/
def GetTrackNextInterestingTime (t : TextTrack) (interestingTimeFlags : Nat) (time : Int) :
    Int :=
  match t.samples.find? (fun s =>
      if interestingTimeFlags / nextTimeEdgeOK % 2 = 1 then decide (time ≤ s.startTime)
      else decide (time < s.startTime)) with
  | some s => s.startTime
  | none => -1

/-- The function `QTText_GetFirstChapterTime`: the result code and the value left in `*theTime`. -/
def QTText_GetFirstChapterTime (theChapterTrack : Option TextTrack) (theTime : Int) :
    OSErr × Int :=
  let myFlags := nextTimeMediaSample + nextTimeEdgeOK
  match theChapterTrack, theTime with
  | none, _ => (OSErr.invalidTrack, kBogusStartingTime)
  | some t, _ => (t.moviesError myFlags 0, GetTrackNextInterestingTime t myFlags 0)

/-- The function `QTText_GetNextChapterTime`: the result code and the value left in `*theTime`. -/
def QTText_GetNextChapterTime (theChapterTrack : Option TextTrack) (theTime : Int) :
    OSErr × Int :=
  let myFlags := nextTimeMediaSample
  match theChapterTrack with
  | none => (OSErr.invalidTrack, kBogusStartingTime)
  | some t => (t.moviesError myFlags theTime, GetTrackNextInterestingTime t myFlags theTime)

/-- The loop of `QTText_GetIndChapterTime`:
`while (myCount < theIndex) { QTText_GetNextChapterTime(theChapterTrack, &myTime); myCount++; }`
The first argument counts the iterations that remain. -/
def indChapterTimeLoop (theChapterTrack : Option TextTrack) (theIndex : Int) :
    Nat → Int → Int → Int
  | 0, _, myTime => myTime
  | k + 1, myCount, myTime =>
    if myCount < theIndex then
      indChapterTimeLoop theChapterTrack theIndex k (myCount + 1)
        (QTText_GetNextChapterTime theChapterTrack myTime).2
    else myTime

/-- The function `QTText_GetIndChapterTime` of the source. -/
def QTText_GetIndChapterTime (theChapterTrack : Option TextTrack) (theIndex : Int) : Int :=
  let myCount : Int := 1
  let myTime : Int := kBogusStartingTime
  if theChapterTrack.isNone || decide (theIndex < 1) then myTime
  else
    let myTime := (QTText_GetFirstChapterTime theChapterTrack myTime).2
    if theIndex = 1 then myTime
    else indChapterTimeLoop theChapterTrack theIndex (theIndex - myCount).toNat myCount myTime

/-- The loop of `QTText_GetChapterCount`:
`while (myTime != kBogusStartingTime) { myCount++; QTText_GetNextChapterTime(theChapterTrack, &myTime); }`
The first argument bounds the number of times the loop condition is evaluated; `none`
means the bound was reached before the loop ended. -/
def chapterCountLoop (theChapterTrack : Option TextTrack) : Nat → Int → Int → Option Int
  | 0, _, _ => none
  | fuel + 1, myCount, myTime =>
    if myTime ≠ kBogusStartingTime then
      chapterCountLoop theChapterTrack fuel (myCount + 1)
        (QTText_GetNextChapterTime theChapterTrack myTime).2
    else some myCount

/-- The function `QTText_GetChapterCount`, with a bound on the evaluations of its loop condition. -/
def QTText_GetChapterCount (fuel : Nat) (theChapterTrack : Option TextTrack) : Option Int :=
  match theChapterTrack with
  | some _ =>
    chapterCountLoop theChapterTrack fuel 0
      (QTText_GetFirstChapterTime theChapterTrack kBogusStartingTime).2
  | none => some 0

/-- Result of code that may read or write outside a buffer. -/
inductive Outcome (α : Type) where
  | value (a : α)
  | memoryFault
  deriving DecidableEq, Repr

/-- The toolbox call `GetMediaSample (GetTrackMedia (track), handle, ..., time, ...)` for a
track whose media time is its track time (`TrackTimeToMediaTime` is the identity): the
data of the sample that is current at `time`, if there is one. -/
def GetMediaSample (t : TextTrack) (time : Int) : Option (List Nat) :=
  (t.samples.find? (fun s =>
    decide (s.startTime ≤ time) && decide (time < s.startTime + s.duration))).map
    (fun s => s.data)

/-- The call `BlockMove (src + offset, dst, size)` into a fresh buffer: the bytes copied, or `none`
when the size is negative or the source is read past its end. -/
def BlockMove (src : List Nat) (offset : Nat) (size : Int) : Option (List Nat) :=
  if 0 ≤ size ∧ offset + size.toNat ≤ src.length then
    some ((src.drop offset).take size.toNat)
  else none

/-- The value `QTText_GetIndChapterText` computes for `myTextSize` from a sample:
`myTextSize = *(short *)(*myHandle)`, a read in the byte order of the host. -/
def chapterTextSize (host : ByteOrder) (b0 b1 : Nat) : Int :=
  toShort (loadU16 host b0 b1)

/-- The function `QTText_GetIndChapterText`, allocations succeeding: `value none` is a `NULL` result,
`value (some bytes)` a fresh buffer holding `bytes` (the terminating zero included). -/
def QTText_GetIndChapterText (host : ByteOrder) (theChapterTrack : Option TextTrack)
    (theIndex : Int) : Outcome (Option (List Nat)) :=
  match theChapterTrack with
  | none => Outcome.value none
  | some t =>
    if theIndex < 1 then Outcome.value none
    else
      let myTime := QTText_GetIndChapterTime theChapterTrack theIndex
      if myTime ≠ kBogusStartingTime then
        match GetMediaSample t myTime with
        | some (b0 :: b1 :: rest) =>
          let myTextSize := chapterTextSize host b0 b1
          match BlockMove (b0 :: b1 :: rest) 2 myTextSize with
          | some myText => Outcome.value (some (myText ++ [0]))
          | none => Outcome.memoryFault
        | _ => Outcome.memoryFault
      else Outcome.value none

/-! ## Movies, tracks and chapter-list references -/

/-- A `Track` pointer: `NULL`, or the identity of a track. -/
abbrev Track := Option Nat

/-- A track of a movie: its identity (the value of the `Track` pointer), its media type,
whether it is enabled, and its track references of type `kTrackReferenceChapterList` in
index order (reference index 1 is the head). References of other types are not used by
this file and are left out. -/
structure TrackRecord where
  id : Nat
  mediaType : Nat
  enabled : Bool
  chapterRefs : List Nat
  deriving DecidableEq, Repr

/-- A movie that is not `NULL`: its tracks in index order (track index 1 is the head). -/
structure MovieRecord where
  tracks : List TrackRecord
  deriving DecidableEq, Repr

/-- The flag `movieTrackMediaType` of the toolbox headers. -/
def movieTrackMediaType : Nat := 1

/-- The flag `movieTrackEnabledOnly` of the toolbox headers. -/
def movieTrackEnabledOnly : Nat := 4

/-- The record of the track a pointer refers to, if the movie has such a track. -/
def findTrack (m : MovieRecord) (theTrack : Track) : Option TrackRecord :=
  match theTrack with
  | none => none
  | some i => m.tracks.find? (fun r => r.id == i)

/-- Apply `f` to the chapter-list references of a track record if its identity is `c`. -/
def updateTrackRefs (c : Nat) (f : List Nat → List Nat) (r : TrackRecord) : TrackRecord :=
  if r.id = c then { r with chapterRefs := f r.chapterRefs } else r

/-- Apply `f` to the chapter-list references of the track with identity `c`. -/
def updateRefs (m : MovieRecord) (c : Nat) (f : List Nat → List Nat) : MovieRecord :=
  { tracks := m.tracks.map (updateTrackRefs c f) }

/-- The toolbox call `GetMovieTrackCount`. -/
def GetMovieTrackCount (m : MovieRecord) : Int :=
  (m.tracks.length : Int)

/-- The toolbox call `GetMovieIndTrack`: the track with the given index, counted from 1. -/
def GetMovieIndTrack (m : MovieRecord) (index : Int) : Track :=
  if 1 ≤ index then (m.tracks[(index - 1).toNat]?).map (fun r => r.id) else none

/-- The toolbox call `GetMovieIndTrackType (movie, index, type, flags)` with
`movieTrackMediaType` among the flags: the `index`-th track (counted from 1) among those
of the given media type, enabled ones only when `movieTrackEnabledOnly` is set. -/
def GetMovieIndTrackType (m : MovieRecord) (index : Int) (trackType : Nat) (flags : Nat) :
    Track :=
  if 1 ≤ index then
    ((m.tracks.filter (fun r =>
        r.mediaType == trackType &&
          (flags / movieTrackEnabledOnly % 2 == 0 || r.enabled)))[(index - 1).toNat]?).map
      (fun r => r.id)
  else none

/-- The toolbox call `GetTrackMovie`: the movie a track belongs to. -/
def GetTrackMovie (m : MovieRecord) (theTrack : Track) : Option MovieRecord :=
  match findTrack m theTrack with
  | some _ => some m
  | none => none

/-- The toolbox call `GetTrackReferenceCount (track, kTrackReferenceChapterList)`. -/
def GetTrackReferenceCount (m : MovieRecord) (theTrack : Track) : Int :=
  match findTrack m theTrack with
  | some r => (r.chapterRefs.length : Int)
  | none => 0

/-- The toolbox call `GetTrackReference (track, kTrackReferenceChapterList, index)`: the
track the reference with that index points at, `NULL` when there is none. -/
def GetTrackReference (m : MovieRecord) (theTrack : Track) (index : Int) : Track :=
  match findTrack m theTrack with
  | some r => if 1 ≤ index then r.chapterRefs[(index - 1).toNat]? else none
  | none => none

/-- The toolbox call `AddTrackReference (track, refTrack, kTrackReferenceChapterList, NULL)`:
a new reference is added after the existing ones (its index is the new count). -/
def AddTrackReference (m : MovieRecord) (theTrack refTrack : Track) : OSErr × MovieRecord :=
  match theTrack, refTrack with
  | some c, some t =>
    match findTrack m (some c) with
    | some _ => (OSErr.noErr, updateRefs m c (fun refs => refs ++ [t]))
    | none => (OSErr.invalidTrack, m)
  | _, _ => (OSErr.invalidTrack, m)

/-- The toolbox call `DeleteTrackReference (track, kTrackReferenceChapterList, index)`: the
reference with that index is removed and the later ones move down by one; an index without
a reference is an error and changes nothing. -/
def DeleteTrackReference (m : MovieRecord) (theTrack : Track) (index : Int) :
    OSErr × MovieRecord :=
  match theTrack with
  | some c =>
    match findTrack m (some c) with
    | some r =>
      if 1 ≤ index ∧ index ≤ (r.chapterRefs.length : Int) then
        (OSErr.noErr, updateRefs m c (fun refs => refs.eraseIdx (index - 1).toNat))
      else (OSErr.badTrackIndex, m)
    | none => (OSErr.invalidTrack, m)
  | none => (OSErr.invalidTrack, m)

/-- The application data of a window (`ApplicationDataRecord` of `QTText.h`), with the
fields this file reads and writes. -/
structure ApplicationDataRecord where
  fMovieHasText : Bool
  fTextIsChapter : Bool
  fTextIsHREF : Bool
  fTextTrack : Track
  fTextHandler : Option Nat
  deriving DecidableEq, Repr

/-- A window object (`WindowObjectRecord` of the application framework), with the fields
this file reads and writes. -/
structure WindowObjectRecord where
  fMovie : Option MovieRecord
  fController : Option Nat
  fIsDirty : Bool
  fAppData : Option ApplicationDataRecord
  deriving DecidableEq, Repr

/-- A `WindowObject`: `NULL`, or a window object record. -/
abbrev WindowObject := Option WindowObjectRecord

/-- The framework helper `QTFrame_GetAppDataFromWindowObject`, which is not part of this
file: the application data of a window object, `NULL` for a `NULL` window object. -/
def QTFrame_GetAppDataFromWindowObject (theWindowObject : WindowObject) :
    Option ApplicationDataRecord :=
  match theWindowObject with
  | some w => w.fAppData
  | none => none

/-- The function `QTText_SetTextTrackAsChapterTrack`: the result code and the window object after the
call (`MCMovieChanged` changes nothing that is modelled). -/
def QTText_SetTextTrackAsChapterTrack (theWindowObject : WindowObject) (theType : Nat)
    (isChapterTrack : Bool) : OSErr × WindowObject :=
  let myErr := OSErr.paramErr
  match QTFrame_GetAppDataFromWindowObject theWindowObject, theWindowObject with
  | some myAppData, some w =>
    let myTextTrack := myAppData.fTextTrack
    match w.fMovie, w.fController with
    | some myMovie, some _ =>
      let myTypeTrack :=
        GetMovieIndTrackType myMovie 1 theType (movieTrackMediaType ||| movieTrackEnabledOnly)
      if myTypeTrack.isSome && myTextTrack.isSome then
        let r :=
          if isChapterTrack then AddTrackReference myMovie myTypeTrack myTextTrack
          else DeleteTrackReference myMovie myTypeTrack 1
        (r.1, some { w with fMovie := some r.2, fIsDirty := true })
      else (myErr, theWindowObject)
    | _, _ => (myErr, theWindowObject)
  | _, _ => (myErr, theWindowObject)

/-- The function `QTText_TrackTypeHasAChapterTrack` of the source. -/
def QTText_TrackTypeHasAChapterTrack (theMovie : MovieRecord) (theType : Nat) : Bool :=
  let myTypeTrack :=
    GetMovieIndTrackType theMovie 1 theType (movieTrackMediaType ||| movieTrackEnabledOnly)
  let myTextTrack : Track :=
    if myTypeTrack.isSome then GetTrackReference theMovie myTypeTrack 1 else none
  myTextTrack.isSome

/-- The function `QTText_TrackHasAChapterTrack` of the source. -/
def QTText_TrackHasAChapterTrack (m : MovieRecord) (theTrack : Track) : Bool :=
  (GetTrackReference m theTrack 1).isSome

/-- The function `QTText_GetChapterTrackForTrack` of the source. -/
def QTText_GetChapterTrackForTrack (m : MovieRecord) (theTrack : Track) : Track :=
  GetTrackReference m theTrack 1

/-- The inner loop of `QTText_IsChapterTrack`, over the reference indices
`myTrRefIndex .. myTrRefCount` of `myTrack`: does one of them point at `theTrack`?
The first argument counts the iterations that remain. -/
def isChapterTrackRefLoop (m : MovieRecord) (myTrack theTrack : Track) (myTrRefCount : Int) :
    Nat → Int → Bool
  | 0, _ => false
  | k + 1, myTrRefIndex =>
    if myTrRefIndex ≤ myTrRefCount then
      if GetTrackReference m myTrack myTrRefIndex = theTrack then true
      else isChapterTrackRefLoop m myTrack theTrack myTrRefCount k (myTrRefIndex + 1)
    else false

/-- The outer loop of `QTText_IsChapterTrack`, over the track indices
`myTrackIndex .. myTrackCount`. The first argument counts the iterations that remain. -/
def isChapterTrackLoop (m : MovieRecord) (theTrack : Track) (myTrackCount : Int) :
    Nat → Int → Bool
  | 0, _ => false
  | k + 1, myTrackIndex =>
    if myTrackIndex ≤ myTrackCount then
      let myTrack := GetMovieIndTrack m myTrackIndex
      if myTrack.isSome && decide (myTrack ≠ theTrack) then
        let myTrRefCount := GetTrackReferenceCount m myTrack
        if isChapterTrackRefLoop m myTrack theTrack myTrRefCount myTrRefCount.toNat 1 then true
        else isChapterTrackLoop m theTrack myTrackCount k (myTrackIndex + 1)
      else isChapterTrackLoop m theTrack myTrackCount k (myTrackIndex + 1)
    else false

/-- The function `QTText_IsChapterTrack`; `m` is the movie the tracks live in, which the source reaches
through `GetTrackMovie`. -/
def QTText_IsChapterTrack (m : MovieRecord) (theTrack : Track) : Bool :=
  match GetTrackMovie m theTrack with
  | none => false
  | some myMovie =>
    let myTrackCount := GetMovieTrackCount myMovie
    isChapterTrackLoop myMovie theTrack myTrackCount myTrackCount.toNat 1

/-- The constant `VideoMediaType` of the toolbox headers, the four characters `vide`. -/
def VideoMediaType : Nat := 1986618469

/-- The constant `TextMediaType` of the toolbox headers, the four characters `text`. -/
def TextMediaType : Nat := 1952807028

/-! ## Notions used to state the properties -/

/-- The samples of a track are in time order: their start times are track times (not
negative) and strictly increase along the track. -/
def TimeOrdered (t : TextTrack) : Prop :=
  (∀ s ∈ t.samples, 0 ≤ s.startTime) ∧
    t.samples.Pairwise (fun a b => a.startTime < b.startTime)

/-- The samples of a track do not overlap: each lasts a positive time and ends no later
than every later sample starts. -/
def NonOverlapping (t : TextTrack) : Prop :=
  (∀ s ∈ t.samples, 0 < s.duration) ∧
    t.samples.Pairwise (fun a b => a.startTime + a.duration ≤ b.startTime)

/-- The start time of the sample at position `j` (counted from 0), and -1 when the track
has no such sample. -/
def chapterStart (t : TextTrack) (j : Nat) : Int :=
  match t.samples[j]? with
  | some s => s.startTime
  | none => -1

/-- The track of the example scenario: "Intro" at 0 for 10, "Chapter 1" at 10 for 15 and
"Chapter 2" at 25 for 20, each sample in the wire format. -/
def exampleTrack : TextTrack :=
  { samples :=
      [ { startTime := 0, duration := 10, data := [0, 5, 73, 110, 116, 114, 111] },
        { startTime := 10, duration := 15,
          data := [0, 9, 67, 104, 97, 112, 116, 101, 114, 32, 49] },
        { startTime := 25, duration := 20,
          data := [0, 9, 67, 104, 97, 112, 116, 101, 114, 32, 50] } ],
    moviesError := fun _ _ => OSErr.noErr }

/-- The movie of the window an operation returns, if there is one. -/
def movieAfter (r : OSErr × WindowObject) : Option MovieRecord :=
  match r.2 with
  | some w => w.fMovie
  | none => none

/-- The chapter-list references of the track `c` in a movie (empty when there is no such
track). -/
def chapterRefsOf (m : MovieRecord) (c : Nat) : List Nat :=
  match findTrack m (some c) with
  | some r => r.chapterRefs
  | none => []

/-- A movie with an enabled video track 1, a text track 2 and a second text track 3; the
video track holds the chapter-list references `refs`. -/
def exampleMovie (refs : List Nat) : MovieRecord :=
  { tracks :=
      [ { id := 1, mediaType := VideoMediaType, enabled := true, chapterRefs := refs },
        { id := 2, mediaType := TextMediaType, enabled := true, chapterRefs := [] },
        { id := 3, mediaType := TextMediaType, enabled := false, chapterRefs := [] } ] }

/-- A window on `exampleMovie refs` with a movie controller, whose text track is
`textTrack`. -/
def exampleWindow (refs : List Nat) (textTrack : Track) : WindowObjectRecord :=
  { fMovie := some (exampleMovie refs),
    fController := some 0,
    fIsDirty := false,
    fAppData := some { fMovieHasText := textTrack.isSome, fTextIsChapter := !refs.isEmpty,
                       fTextIsHREF := false, fTextTrack := textTrack, fTextHandler := none } }

/-! ## Chapter tracks of a movie -/

/-- The toolbox call `GetTrackEnabled`. -/
def GetTrackEnabled (m : MovieRecord) (theTrack : Track) : Bool :=
  match findTrack m theTrack with
  | some r => r.enabled
  | none => false

/-- The loop of `QTText_MovieHasAChapterTrack` over the track indices
`myCount .. myTrackCount`, as the compiler reads it: the assignment to `myGotChapter` is
the body of `if (GetTrackEnabled(myTrack))`, the test `if (myGotChapter) break;` follows
it for every track. The first argument counts the iterations that remain. -/
def movieHasAChapterTrackLoop (theMovie : MovieRecord) (myTrackCount : Int) :
    Nat → Int → Bool → Bool
  | 0, _, myGotChapter => myGotChapter
  | k + 1, myCount, myGotChapter =>
    if myCount ≤ myTrackCount then
      let myTrack := GetMovieIndTrack theMovie myCount
      let myGotChapter :=
        if GetTrackEnabled theMovie myTrack then QTText_TrackHasAChapterTrack theMovie myTrack
        else myGotChapter
      if myGotChapter then myGotChapter
      else movieHasAChapterTrackLoop theMovie myTrackCount k (myCount + 1) myGotChapter
    else myGotChapter

/-- The function `QTText_MovieHasAChapterTrack` of the source. -/
def QTText_MovieHasAChapterTrack (theMovie : MovieRecord) : Bool :=
  let myTrackCount := GetMovieTrackCount theMovie
  movieHasAChapterTrackLoop theMovie myTrackCount myTrackCount.toNat 1 false

/-- The loop of `QTText_GetChapterTrackForMovie` over the track indices
`myCount .. myTrackCount`, as the compiler reads it: the assignment to `myChapTrack` is
the body of `if (GetTrackEnabled(myTrack))`, the test `if (myChapTrack != NULL) break;`
follows it for every track. The first argument counts the iterations that remain. -/
def getChapterTrackForMovieLoop (theMovie : MovieRecord) (myTrackCount : Int) :
    Nat → Int → Track → Track
  | 0, _, myChapTrack => myChapTrack
  | k + 1, myCount, myChapTrack =>
    if myCount ≤ myTrackCount then
      let myTrack := GetMovieIndTrack theMovie myCount
      let myChapTrack :=
        if GetTrackEnabled theMovie myTrack then QTText_GetChapterTrackForTrack theMovie myTrack
        else myChapTrack
      if myChapTrack.isSome then myChapTrack
      else getChapterTrackForMovieLoop theMovie myTrackCount k (myCount + 1) myChapTrack
    else myChapTrack

/-- The function `QTText_GetChapterTrackForMovie` of the source. -/
def QTText_GetChapterTrackForMovie (theMovie : MovieRecord) : Track :=
  let myTrackCount := GetMovieTrackCount theMovie
  getChapterTrackForMovieLoop theMovie myTrackCount myTrackCount.toNat 1 none

/-- A movie of three tracks, given by whether each is enabled and which chapter-list
references it holds. -/
def threeTrackMovie (e1 : Bool) (r1 : List Nat) (e2 : Bool) (r2 : List Nat) (e3 : Bool)
    (r3 : List Nat) : MovieRecord :=
  { tracks :=
      [ { id := 1, mediaType := VideoMediaType, enabled := e1, chapterRefs := r1 },
        { id := 2, mediaType := VideoMediaType, enabled := e2, chapterRefs := r2 },
        { id := 3, mediaType := VideoMediaType, enabled := e3, chapterRefs := r3 } ] }

/-! ## Conversion of a C string to a Pascal string -/

/-- Where the argument `theSrc` of `QTText_CopyCStringToPascal` points: nowhere, at the
destination itself, or at a buffer that shares no byte with the destination. -/
inductive CStringPtr where
  | null
  | sameAsDst
  | apart (bytes : List Nat)
  deriving DecidableEq, Repr

/-- An access to the destination buffer `theDst`, by index. -/
inductive MemEvent where
  | read (i : Nat)
  | write (i : Nat)
  deriving DecidableEq, Repr

/-- The loop of the branch for overlapping strings:
`while (myChar != 0) { myNextChar = *theSrc++; *myCurDst++ = myChar; myChar = myNextChar; if (++myLength >= 255) break; }`
with `theSrc` and `myCurDst` as indices into the one buffer. The result is the buffer, the
final `myLength` and the accesses to the buffer in program order. The first argument bounds
the number of iterations (`myLength` grows by one in each and ends the loop at 255); `none`
is a read or write outside the buffer, or the bound reached. -/
def copyInPlaceLoop :
    Nat → Nat → Nat → Int → Nat → List Nat → Option (List Nat × Int × List MemEvent)
  | 0, _, _, _, _, _ => none
  | fuel + 1, theSrc, myCurDst, myLength, myChar, buf =>
    if myChar ≠ 0 then
      match buf[theSrc]? with
      | none => none
      | some myNextChar =>
        if myCurDst < buf.length then
          if myLength + 1 ≥ 255 then
            some (buf.set myCurDst myChar, myLength + 1,
              [MemEvent.read theSrc, MemEvent.write myCurDst])
          else
            match copyInPlaceLoop fuel (theSrc + 1) (myCurDst + 1) (myLength + 1) myNextChar
                (buf.set myCurDst myChar) with
            | some (out, len, ev) =>
              some (out, len, MemEvent.read theSrc :: MemEvent.write myCurDst :: ev)
            | none => none
        else none
    else some (buf, myLength, [])

/-- The loop of the branch for strings stored apart:
`while ((myTemp = *theSrc++) != 0) { *myCurDst++ = myTemp; if (--myOverflow <= 0) break; }`
with `theSrc` an index into the source and `myCurDst` an index into the destination. The
result is the destination, the final `myOverflow` and the accesses to the destination in
program order. The first argument bounds the number of iterations (`myOverflow` starts at
255 and ends the loop at 0); `none` is a read outside the source, a write outside the
destination, or the bound reached. -/
def copyApartLoop (src : List Nat) :
    Nat → Nat → Nat → Int → List Nat → Option (List Nat × Int × List MemEvent)
  | 0, _, _, _, _ => none
  | fuel + 1, theSrc, myCurDst, myOverflow, dst =>
    match src[theSrc]? with
    | none => none
    | some myTemp =>
      if myTemp ≠ 0 then
        if myCurDst < dst.length then
          if myOverflow - 1 ≤ 0 then
            some (dst.set myCurDst myTemp, myOverflow - 1, [MemEvent.write myCurDst])
          else
            match copyApartLoop src fuel (theSrc + 1) (myCurDst + 1) (myOverflow - 1)
                (dst.set myCurDst myTemp) with
            | some (out, ov, ev) => some (out, ov, MemEvent.write myCurDst :: ev)
            | none => none
        else none
      else some (dst, myOverflow, [])

/-- The function `QTText_CopyCStringToPascal`: the destination buffer after the call and the
accesses to it in program order; `none` is a read or write outside a buffer. -/
def QTText_CopyCStringToPascal (theSrc : CStringPtr) (theDst : List Nat) :
    Option (List Nat × List MemEvent) :=
  let branch : Option (List Nat × Int × List MemEvent) :=
    match theSrc with
    | CStringPtr.sameAsDst =>
      match theDst[0]? with
      | none => none
      | some myChar =>
        match copyInPlaceLoop 255 1 1 0 myChar theDst with
        | some (out, myLength, ev) => some (out, myLength, MemEvent.read 0 :: ev)
        | none => none
    | CStringPtr.apart src =>
      match copyApartLoop src 255 0 1 255 theDst with
      | some (out, myOverflow, ev) => some (out, 255 - myOverflow, ev)
      | none => none
    | CStringPtr.null => some (theDst, 0, [])
  match branch with
  | some (out, myLength, ev) =>
    if 0 < out.length then some (out.set 0 (toUChar myLength), ev ++ [MemEvent.write 0])
    else none
  | none => none

/-- No read of the trace is at an index that an earlier write of the trace (or one of
`written`) was at. -/
def readsFresh : List Nat → List MemEvent → Bool
  | _, [] => true
  | written, MemEvent.read i :: rest => !written.contains i && readsFresh written rest
  | written, MemEvent.write i :: rest => readsFresh (i :: written) rest

/-! ## The samples `QTText_AddTextTrack` adds -/

/-- Conversion of an integer to the C type `long` (a `TimeValue`), 32 bits wide. -/
def toLong (v : Int) : Int :=
  (v + 2147483648) % 4294967296 - 2147483648

/-- Conversion of an integer to the C type `unsigned long`, 32 bits wide. -/
def toULong (v : Int) : Int :=
  v % 4294967296

/-- The toolbox call `ConvertTimeScale (&timeRec, newScale)` on a time record of the given
value and scale: the value rescaled to the new scale, rounded down. -/
def ConvertTimeScale (value scale newScale : Int) : Int :=
  value * newScale / scale

/-- The duration `QTText_AddTextTrack` computes for the sample of one array element:
`myTextSampleDuration = myTypeSampleDuration * theFrames[myIndex]`, stored in
`myTimeRec.value.lo` with the movie's time scale, converted to the media's time scale and
read back from `myTimeRec.value.lo`. -/
def textSampleDuration (movieTimeScale mediaTimeScale myTypeSampleDuration frames : Int) :
    Int :=
  let myTextSampleDuration := toLong (myTypeSampleDuration * frames)
  let lo := toULong myTextSampleDuration
  let converted := ConvertTimeScale lo movieTimeScale mediaTimeScale
  toLong (toULong converted)

/-- The toolbox call `GetMediaDuration`: the sum of the durations of the samples. -/
def GetMediaDuration (media : List TextSample) : Int :=
  (media.map (fun s => s.duration)).sum

/-- The toolbox call `AddMediaSample (media, sample, 0, size, duration, desc, 1, 0, NULL)`:
one sample of the given duration is added at the end of the media, where it starts at the
duration the media had. -/
def AddMediaSample (media : List TextSample) (data : List Nat) (durationPerSample : Int) :
    List TextSample :=
  media ++ [{ startTime := GetMediaDuration media, duration := durationPerSample, data := data }]

/-- The loop of `QTText_AddTextTrack` over the array elements `myIndex .. theNumFrames - 1`,
on the samples of the new media. `stack` is what the local `mySampleText` holds before
`QTText_CopyCStringToPascal` fills it. The first argument counts the iterations that
remain; `none` is a read outside one of the arrays or a fault of the string copy. -/
def addTextTrackLoop (host : ByteOrder) (movieTimeScale mediaTimeScale : Int)
    (myTypeSampleDuration : Int) (theStrings : List CStringPtr) (theFrames : List Int)
    (theNumFrames : Int) (stack : List Nat) :
    Nat → Int → List TextSample → Option (List TextSample)
  | 0, _, media => some media
  | k + 1, myIndex, media =>
    if myIndex < theNumFrames then
      match theFrames[myIndex.toNat]?, theStrings[myIndex.toNat]? with
      | some frames, some str =>
        let myTextSampleDuration :=
          textSampleDuration movieTimeScale mediaTimeScale myTypeSampleDuration frames
        match QTText_CopyCStringToPascal str stack with
        | some (mySampleText, _) =>
          addTextTrackLoop host movieTimeScale mediaTimeScale myTypeSampleDuration theStrings
            theFrames theNumFrames stack k (myIndex + 1)
            (AddMediaSample media (QTText_AddTextTrack_sample host mySampleText)
              myTextSampleDuration)
        | none => none
      | _, _ => none
    else some media

/-- The media edits of `QTText_AddTextTrack` (from `BeginMediaEdits`, which succeeds, to
`EndMediaEdits`): the samples of the new media. `myTypeSampleDuration` is the result of
`QTUtils_GetFrameDuration (myTypeTrack)`, the two time scales are those of the movie and
of the new media. -/
def QTText_AddTextTrack_media (host : ByteOrder) (movieTimeScale mediaTimeScale : Int)
    (myTypeSampleDuration : Int) (theStrings : List CStringPtr) (theFrames : List Int)
    (theNumFrames : Int) (stack : List Nat) : Option (List TextSample) :=
  addTextTrackLoop host movieTimeScale mediaTimeScale myTypeSampleDuration theStrings
    theFrames theNumFrames stack theNumFrames.toNat 0 []

/-- A `char *` argument that is `NULL` or points at a C string: bytes other than zero,
then a zero byte. -/
def IsCString (p : CStringPtr) : Prop :=
  p = CStringPtr.null ∨
    ∃ s rest : List Nat, (∀ b ∈ s, b ≠ 0) ∧ p = CStringPtr.apart (s ++ 0 :: rest)

/-- Samples laid end to end from time `t0`, one for each pair of a duration and the sample
data. -/
def layout : Int → List (Int × List Nat) → List TextSample
  | _, [] => []
  | t0, (d, x) :: rest => { startTime := t0, duration := d, data := x } :: layout (t0 + d) rest

/-! ## Removing text tracks -/

/-- The constant `kAllTextTracks` of `QTText.h`. -/
def kAllTextTracks : Int := 0

/-- Remove the references to the track `t` from a track record. -/
def dropRefsTo (t : Nat) (r : TrackRecord) : TrackRecord :=
  { r with chapterRefs := r.chapterRefs.filter (fun x => x != t) }

/-- Modelled from the spec: the helper `QTUtils_DeleteAllReferencesToTrack` of
`QTUtilities.c`, which is not part of this file; deleting a track "must remove dangling
references", so every reference to the track is removed from the tracks of the movie. -/
def QTUtils_DeleteAllReferencesToTrack (m : MovieRecord) (theTrack : Track) : MovieRecord :=
  match theTrack with
  | some t => { tracks := m.tracks.map (dropRefsTo t) }
  | none => m

/-- The toolbox call `DisposeMovieTrack`: the track is removed from its movie, the other
tracks keep their order. -/
def DisposeMovieTrack (m : MovieRecord) (theTrack : Track) : MovieRecord :=
  match theTrack with
  | some t => { tracks := m.tracks.filter (fun r => r.id != t) }
  | none => m

/-- The loop of `QTText_RemoveIndTextTrack` for `kAllTextTracks`:
`while (myTrack != NULL) { QTUtils_DeleteAllReferencesToTrack(myTrack); MCMovieChanged(myMC, myMovie); DisposeMovieTrack(myTrack); myTrack = GetMovieIndTrackType(myMovie, 1, TextMediaType, movieTrackMediaType); }`
The first argument bounds the number of times the loop condition is evaluated; `none`
means the bound was reached before the loop ended. -/
def removeAllTextTracksLoop : Nat → MovieRecord → Track → Option MovieRecord
  | 0, _, _ => none
  | fuel + 1, myMovie, myTrack =>
    if myTrack.isSome then
      let myMovie := DisposeMovieTrack (QTUtils_DeleteAllReferencesToTrack myMovie myTrack) myTrack
      removeAllTextTracksLoop fuel myMovie
        (GetMovieIndTrackType myMovie 1 TextMediaType movieTrackMediaType)
    else some myMovie

/-- The function `QTText_RemoveIndTextTrack`, with a bound on the evaluations of the
condition of its loop: the result code and the window object after the call. The toolbox
finds no track in a `NULL` movie. -/
def QTText_RemoveIndTextTrack (fuel : Nat) (theWindowObject : WindowObject) (theIndex : Int) :
    Option (OSErr × WindowObject) :=
  match theWindowObject with
  | none => some (OSErr.paramErr, none)
  | some w =>
    match w.fMovie with
    | none => some (OSErr.badTrackIndex, some w)
    | some myMovie =>
      if theIndex = kAllTextTracks then
        let myTrack := GetMovieIndTrackType myMovie 1 TextMediaType movieTrackMediaType
        let myErr := if myTrack.isNone then OSErr.badTrackIndex else OSErr.noErr
        match removeAllTextTracksLoop fuel myMovie myTrack with
        | some m2 => some (myErr, some { w with fMovie := some m2 })
        | none => none
      else
        let myTrack := GetMovieIndTrackType myMovie theIndex TextMediaType movieTrackMediaType
        if myTrack.isNone then some (OSErr.badTrackIndex, some w)
        else
          some (OSErr.noErr,
            some { w with
              fMovie := some (DisposeMovieTrack
                (QTUtils_DeleteAllReferencesToTrack myMovie myTrack) myTrack) })

/-- What identifies a track in the track list of a movie: identity, media type and
whether it is enabled. -/
def trackKey (r : TrackRecord) : Nat × Nat × Bool :=
  (r.id, r.mediaType, r.enabled)

/-! ## Editing the text of the current sample -/

/-- The QuickDraw type `Rect`. -/
structure Rect where
  top : Int
  left : Int
  bottom : Int
  right : Int
  deriving DecidableEq, Repr

/-- The display settings a text sample is stored with: text box, justification and display
flags. -/
structure TextDisplay where
  textBox : Rect
  justification : Int
  displayFlags : Int
  deriving DecidableEq, Repr

/-- The constant `teCenter` of the toolbox headers. -/
def teCenter : Int := 1

/-- The constant `dfClipToTextBox` of the toolbox headers. -/
def dfClipToTextBox : Int := 4

/-- The dialog item `kEditOKIndex` of `QTText.h`. -/
def kEditOKIndex : Int := 1

/-- The dialog item `kEditCancelIndex` of `QTText.h`. -/
def kEditCancelIndex : Int := 2

/-- The toolbox conversion `Fix2Long` of a 16.16 fixed-point number to an integer: the
number of whole units. The theorems apply it to whole numbers of pixels only, where no
rounding is involved. -/
def Fix2Long (x : Int) : Int :=
  x / 65536

/-- A sample of the text track being edited: its place on the track (start and duration in
the movie's time scale), its place in the media (start and duration in the media's time
scale), its text and its display settings. -/
structure EditSample where
  startTime : Int
  duration : Int
  mediaTime : Int
  mediaDuration : Int
  text : List Nat
  display : TextDisplay
  deriving DecidableEq, Repr

/-- The text track being edited, as the toolbox shows it: its samples in track order, the
time scale of the movie, in which track times are counted, the time scale of the track's
media, and the track's dimensions as fixed-point numbers. -/
structure EditTrack where
  samples : List EditSample
  movieTimeScale : Int
  mediaTimeScale : Int
  width : Int
  height : Int
  deriving DecidableEq, Repr

/-- What the surroundings contribute to one call of `QTText_EditText`: whether
`GetNewDialog` returned a dialog, the item `ModalDialog` reports, the text
`GetDialogItemText` returns, the movie time, the value the local variable
`myMediaSampleDuration` holds before it is assigned, the results of the three toolbox
calls whose result the function tests, and the media time `TextMediaAddTextSample` stores
through `&mySampleTime`. -/
structure EditEnv where
  dialog : Bool
  myItem : Int
  editedText : List Nat
  movieTime : Int
  myMediaSampleDuration : Int
  beginMediaEdits : OSErr
  deleteTrackSegment : OSErr
  textMediaAddTextSample : OSErr
  sampleTime : Int
  deriving DecidableEq, Repr

/-- The toolbox call `TrackTimeToMediaTime (value, track)` for a track whose samples play
at rate 1: the media time of the sample on the track at `value`, advanced by the time
elapsed since the sample's start, converted from the movie's to the media's time scale; -1
when no sample is on the track at `value`. -/
def TrackTimeToMediaTime (value : Int) (track : EditTrack) : Int :=
  match track.samples.find? (fun s =>
    decide (s.startTime ≤ value) && decide (value < s.startTime + s.duration)) with
  | some s =>
    s.mediaTime +
      ConvertTimeScale (value - s.startTime) track.movieTimeScale track.mediaTimeScale
  | none => -1

/-- The toolbox call `MediaTimeToSampleNum`: start and duration, in media time, of the
media sample that holds the given media time, if there is one (the sample number it also
returns is not used). -/
def MediaTimeToSampleNum (track : EditTrack) (time : Int) : Option (Int × Int) :=
  (track.samples.find? (fun s =>
    decide (s.mediaTime ≤ time) && decide (time < s.mediaTime + s.mediaDuration))).map
    (fun s => (s.mediaTime, s.mediaDuration))

/-- The toolbox call
`GetTrackNextInterestingTime (track, nextTimeEdgeOK | nextTimeMediaSample, time, -fixed1, &t, NULL)`,
a backward search: the start of the last sample that starts at or before `time`, and -1
when there is none. Times are track times. -/
def interestingTimeBackward (track : EditTrack) (time : Int) : Int :=
  match track.samples.reverse.find? (fun s => decide (s.startTime ≤ time)) with
  | some s => s.startTime
  | none => -1

/-- The toolbox call
`GetTrackNextInterestingTime (track, nextTimeEdgeOK | nextTimeMediaSample, time, fixed1, NULL, &d)`,
a forward search: the duration on the track of the first sample that starts at or after
`time`, and 0 when there is none. -/
def interestingDurationForward (track : EditTrack) (time : Int) : Int :=
  match track.samples.find? (fun s => decide (time ≤ s.startTime)) with
  | some s => s.duration
  | none => 0

/-- Move a sample along the track. -/
def shiftSample (d : Int) (s : EditSample) : EditSample :=
  { s with startTime := s.startTime + d }

/-- The toolbox call `DeleteTrackSegment (track, startTime, duration)` for a segment made
of whole samples, in track time: the samples that end at or before the segment stay, the
samples that start at or after its end move earlier by its duration, the others go. -/
def DeleteTrackSegment (track : EditTrack) (startTime duration : Int) : EditTrack :=
  { track with
    samples := track.samples.filterMap (fun s =>
      if s.startTime + s.duration ≤ startTime then some s
      else if startTime + duration ≤ s.startTime then some (shiftSample (-duration) s)
      else none) }

/-- The toolbox call `TextMediaAddTextSample` with the arguments `QTText_EditText` passes
that are not 0 or `NULL`: the text, the justification, the text box, the display flags and
the duration of the sample in media time. The sample is stored in the media at the media
time the call returns through `&mySampleTime`; it is on no track yet. -/
def TextMediaAddTextSample (text : List Nat) (textJustification : Int) (textBox : Rect)
    (displayFlags : Int) (duration : Int) (sampleTime : Int) : EditSample :=
  { startTime := -1, duration := 0, mediaTime := sampleTime, mediaDuration := duration,
    text := text,
    display := { textBox := textBox, justification := textJustification,
                 displayFlags := displayFlags } }

/-- The toolbox call `InsertMediaIntoTrack (track, trackStart, mediaTime, mediaDuration, fixed1)`
for a media segment that starts with the sample `newSample`: at rate 1 the segment takes
`mediaDuration`, converted from the media's to the movie's time scale, on the track; it is
placed at `trackStart`, the samples that start before stay, the samples that start at or
after `trackStart` move later by the time it takes. -/
def InsertMediaIntoTrack (track : EditTrack) (trackStart : Int) (newSample : EditSample)
    (mediaTime mediaDuration : Int) : EditTrack :=
  let trackDuration :=
    ConvertTimeScale mediaDuration track.mediaTimeScale track.movieTimeScale
  { track with
    samples :=
      track.samples.filter (fun s => decide (s.startTime < trackStart)) ++
        { newSample with startTime := trackStart, duration := trackDuration,
                         mediaTime := mediaTime } ::
          (track.samples.filter (fun s => decide (trackStart ≤ s.startTime))).map
            (shiftSample trackDuration) }

/-- The function `QTText_EditText`: the window object, the window's text track (`NULL` when
the window has none) and the global `gSampleText` after the call. The dialog loop ends
when `ModalDialog` reports `kEditOKIndex` or `kEditCancelIndex`; `none` is the loop that
does not end because another item is reported. When `MediaTimeToSampleNum` finds no sample
at the current time, `myMediaSampleDuration` keeps the value it held. -/
def QTText_EditText (env : EditEnv) (theWindowObject : WindowObject)
    (myTrack : Option EditTrack) (gSampleText : List Nat) :
    Option (WindowObject × Option EditTrack × List Nat) :=
  match QTFrame_GetAppDataFromWindowObject theWindowObject, theWindowObject with
  | some _, some w =>
    if env.dialog then
      if env.myItem ≠ kEditOKIndex ∧ env.myItem ≠ kEditCancelIndex then none
      else if env.myItem = kEditOKIndex then
        let gSampleText := env.editedText
        match myTrack with
        | none => some (theWindowObject, myTrack, gSampleText)
        | some track =>
          let myMovieTime := env.movieTime
          let myMediaCurrentTime := TrackTimeToMediaTime myMovieTime track
          let myMediaSampleDuration :=
            match MediaTimeToSampleNum track myMediaCurrentTime with
            | some (_, d) => d
            | none => env.myMediaSampleDuration
          let myInterestingTime := interestingTimeBackward track myMovieTime
          let myMovieTime := myInterestingTime
          let myDuration := interestingDurationForward track myMovieTime
          if env.beginMediaEdits ≠ OSErr.noErr then
            some (theWindowObject, myTrack, gSampleText)
          else if env.deleteTrackSegment ≠ OSErr.noErr then
            some (theWindowObject, myTrack, gSampleText)
          else
            let track1 := DeleteTrackSegment track myInterestingTime myDuration
            let myBounds : Rect :=
              { top := 0, left := 0, right := Fix2Long track1.width,
                bottom := Fix2Long track1.height }
            if env.textMediaAddTextSample ≠ OSErr.noErr then
              some (theWindowObject, some track1, gSampleText)
            else
              let mySampleTime := env.sampleTime
              let newSample :=
                TextMediaAddTextSample ((gSampleText.drop 1).take (gSampleText.headD 0))
                  teCenter myBounds dfClipToTextBox myMediaSampleDuration mySampleTime
              let track2 :=
                InsertMediaIntoTrack track1 myInterestingTime newSample mySampleTime
                  myMediaSampleDuration
              some (some { w with fIsDirty := true }, some track2, gSampleText)
      else some (theWindowObject, myTrack, gSampleText)
    else some (theWindowObject, myTrack, gSampleText)
  | _, _ => some (theWindowObject, myTrack, gSampleText)

/-- The track of the example scenario as a track to edit: the movie counts 600 units a
second and the media 30, so the samples of 10, 15 and 20 media units take 200, 300 and 400
units on the track; the track is 160 by 40 pixels and every sample is left-justified in a
box of its own. -/
def exampleEditTrack : EditTrack :=
  { samples :=
      [ { startTime := 0, duration := 200, mediaTime := 0, mediaDuration := 10,
          text := [73, 110, 116, 114, 111],
          display := { textBox := { top := 0, left := 0, bottom := 20, right := 80 },
                       justification := 0, displayFlags := 0 } },
        { startTime := 200, duration := 300, mediaTime := 10, mediaDuration := 15,
          text := [67, 104, 97, 112, 116, 101, 114, 32, 49],
          display := { textBox := { top := 0, left := 0, bottom := 20, right := 80 },
                       justification := 0, displayFlags := 0 } },
        { startTime := 500, duration := 400, mediaTime := 25, mediaDuration := 20,
          text := [67, 104, 97, 112, 116, 101, 114, 32, 50],
          display := { textBox := { top := 0, left := 0, bottom := 20, right := 80 },
                       justification := 0, displayFlags := 0 } } ],
    movieTimeScale := 600,
    mediaTimeScale := 30,
    width := 160 * 65536,
    height := 40 * 65536 }

/-- A call of `QTText_EditText` at movie time 260 in which the user enters "Hi" and presses
OK and every toolbox call succeeds; the new sample is stored at the end of the media, at
media time 45. -/
def exampleEditEnv : EditEnv :=
  { dialog := true, myItem := kEditOKIndex, editedText := [2, 72, 105], movieTime := 260,
    myMediaSampleDuration := 0,
    beginMediaEdits := OSErr.noErr, deleteTrackSegment := OSErr.noErr,
    textMediaAddTextSample := OSErr.noErr, sampleTime := 45 }

/-! ## Lemmas: byte order -/

theorem swap_bytes (x y : Nat) (hx : x < 256) (hy : y < 256) :
    Endian16_Swap (x * 256 + y) = y * 256 + x := by
  unfold Endian16_Swap
  have h1 : (x * 256 + y) % 256 = y := by omega
  have h2 : (x * 256 + y) / 256 = x := by omega
  rw [h1, h2, Nat.mod_eq_of_lt hx]

theorem storeU16_NtoB (host : ByteOrder) (v : Nat) :
    storeU16 host (EndianU16_NtoB host v) = [(v / 256) % 256, v % 256] := by
  cases host with
  | big =>
    simp only [storeU16, EndianU16_NtoB]
    have h1 : v % 65536 / 256 % 256 = v / 256 % 256 := by omega
    have h2 : v % 65536 % 256 = v % 256 := by omega
    rw [h1, h2]
  | little =>
    simp only [storeU16, EndianU16_NtoB, Endian16_Swap]
    have h1 : (v % 256 * 256 + v / 256 % 256) % 256 = v / 256 % 256 := by omega
    have h2 : (v % 256 * 256 + v / 256 % 256) / 256 % 256 = v % 256 := by omega
    rw [h1, h2]

theorem BtoN_loadU16 (host : ByteOrder) (b0 b1 : Nat) :
    EndianU16_BtoN host (loadU16 host b0 b1) = (b0 % 256) * 256 + b1 % 256 := by
  cases host with
  | big =>
    simp only [loadU16, EndianU16_BtoN]
    omega
  | little =>
    simp only [loadU16, EndianU16_BtoN]
    exact swap_bytes (b1 % 256) (b0 % 256) (Nat.mod_lt _ (by decide)) (Nat.mod_lt _ (by decide))

theorem toShort_small (v : Nat) (h : v < 32768) : toShort v = (v : Int) := by
  unfold toShort
  have h1 : v % 65536 = v := Nat.mod_eq_of_lt (by omega)
  rw [h1]
  simp [h]

theorem toUChar_small (v : Nat) (h : v < 256) : toUChar (v : Int) = v := by
  unfold toUChar
  omega

/-! ## Lemmas: the copy loop -/

theorem textProcLoop_spec (theText text : List Nat) (n : Nat) (hn : n ≤ 255)
    (htext : text.length = n)
    (hsrc : ∀ j, j < n → theText[j + 2]? = text[j]?) :
    ∀ (k i : Nat) (g : List Nat), i + k = n + 1 → 1 ≤ i → g.length = 256 →
      ∃ g2, textProcLoop theText (n : Int) k i g = some g2 ∧ g2.length = 256 ∧
        (∀ j, i ≤ j → j ≤ n → g2[j]? = text[j - 1]?) ∧
        (∀ j, j < i ∨ n < j → g2[j]? = g[j]?) := by
  intro k
  induction k with
  | zero =>
    intro i g _ _ hg
    refine ⟨g, rfl, hg, ?_, ?_⟩
    · intro j h1 h2; omega
    · intro j _; rfl
  | succ k ih =>
    intro i g hik hi hg
    have hle : (i : Int) ≤ (n : Int) := by omega
    have hlt : i < 256 := by omega
    have hread : theText[i + 1]? = text[i - 1]? := by
      have := hsrc (i - 1) (by omega)
      have e : i - 1 + 2 = i + 1 := by omega
      rw [e] at this
      exact this
    have hsome : ∃ c, text[i - 1]? = some c := by
      have : i - 1 < text.length := by omega
      exact ⟨text[i - 1], List.getElem?_eq_getElem this⟩
    obtain ⟨c, hc⟩ := hsome
    obtain ⟨g2, h1, h2, h3, h4⟩ := ih (i + 1) (g.set i c) (by omega) (by omega) (by simp [hg])
    refine ⟨g2, ?_, h2, ?_, ?_⟩
    · simp only [textProcLoop, hle, hlt, if_true, hread, hc]
      exact h1
    · intro j hj1 hj2
      by_cases hji : j = i
      · subst hji
        rw [h4 j (Or.inl (by omega))]
        rw [List.getElem?_set_self (by omega)]
        exact hc.symm
      · exact h3 j (by omega) hj2
    · intro j hj
      rw [h4 j (by omega)]
      rw [List.getElem?_set_ne (by omega)]

theorem sample_of_pascal (host : ByteOrder) (text pad : List Nat) (hlen : text.length ≤ 255) :
    QTText_AddTextTrack_sample host (text.length :: (text ++ pad)) =
      0 :: text.length :: text := by
  unfold QTText_AddTextTrack_sample
  simp only [List.headD_cons, storeU16_NtoB, List.drop_succ_cons, List.drop_zero]
  have h1 : text.length / 256 % 256 = 0 := by omega
  have h2 : text.length % 256 = text.length := by omega
  rw [h1, h2, List.take_left]
  rfl

/-! ## Lemmas: walking the samples of a chapter track -/

theorem find_next (l : List TextSample)
    (hs : l.Pairwise (fun a b => a.startTime < b.startTime)) :
    ∀ (j : Nat) (s : TextSample), l[j]? = some s →
      l.find? (fun x => decide (s.startTime < x.startTime)) = l[j + 1]? := by
  induction l with
  | nil => intro j s h; simp at h
  | cons a l ih =>
    intro j s h
    rw [List.pairwise_cons] at hs
    cases j with
    | zero =>
      simp only [List.getElem?_cons_zero, Option.some.injEq] at h
      subst h
      cases l with
      | nil => simp
      | cons b l2 =>
        have hb : a.startTime < b.startTime := hs.1 b (List.mem_cons_self _ _)
        simp [hb]
    | succ j =>
      simp only [List.getElem?_cons_succ] at h
      have hmem : s ∈ l := List.getElem?_mem h
      have hlt : a.startTime < s.startTime := hs.1 s hmem
      have hna : ¬ s.startTime < a.startTime := by omega
      simp only [List.find?_cons, hna, decide_False, List.getElem?_cons_succ]
      exact ih hs.2 j s h

theorem next_of_sample (t : TextTrack) (ho : TimeOrdered t) (j : Nat)
    (hj : j < t.samples.length) :
    GetTrackNextInterestingTime t nextTimeMediaSample (chapterStart t j) =
      chapterStart t (j + 1) := by
  have hget : t.samples[j]? = some t.samples[j] := List.getElem?_eq_getElem hj
  have hcs : chapterStart t j = (t.samples[j]).startTime := by
    simp [chapterStart, hget]
  have hflag : ¬ (nextTimeMediaSample / nextTimeEdgeOK % 2 = 1) := by decide
  rw [hcs]
  simp only [GetTrackNextInterestingTime, hflag, if_false]
  rw [find_next t.samples ho.2 j _ hget]
  rfl

theorem first_of_track (t : TextTrack) (ho : TimeOrdered t) (flags : Nat) (time : Int)
    (hedge : if flags / nextTimeEdgeOK % 2 = 1 then time ≤ 0 else time < 0) :
    GetTrackNextInterestingTime t flags time = chapterStart t 0 := by
  unfold GetTrackNextInterestingTime chapterStart
  cases hl : t.samples with
  | nil => simp
  | cons a l =>
    have ha : 0 ≤ a.startTime := ho.1 a (by rw [hl]; exact List.mem_cons_self _ _)
    have hp : (if flags / nextTimeEdgeOK % 2 = 1 then decide (time ≤ a.startTime)
        else decide (time < a.startTime)) = true := by
      split at hedge
      · rename_i h; simp only [h, if_true, decide_eq_true_eq]; omega
      · rename_i h; simp only [h, if_false, decide_eq_true_eq]; omega
    simp [List.find?_cons, hp]

theorem chapterStart_none (t : TextTrack) (j : Nat) (hj : t.samples.length ≤ j) :
    chapterStart t j = -1 := by
  unfold chapterStart
  rw [List.getElem?_eq_none hj]

theorem chapterStart_nonneg (t : TextTrack) (ho : TimeOrdered t) (j : Nat)
    (hj : j < t.samples.length) : 0 ≤ chapterStart t j := by
  unfold chapterStart
  rw [List.getElem?_eq_getElem hj]
  exact ho.1 _ (List.getElem_mem _)

/-- One step of the walk: from the start of sample `j`, or from -1 when `j` is the number of
samples, `QTText_GetNextChapterTime` leads to position `j + 1` taken modulo one more than
the number of samples. -/
theorem next_step (t : TextTrack) (ho : TimeOrdered t) (j : Nat)
    (hj : j ≤ t.samples.length) :
    (QTText_GetNextChapterTime (some t) (chapterStart t j)).2 =
      chapterStart t ((j + 1) % (t.samples.length + 1)) := by
  simp only [QTText_GetNextChapterTime]
  by_cases hlt : j < t.samples.length
  · rw [next_of_sample t ho j hlt, Nat.mod_eq_of_lt (by omega)]
  · have hjn : j = t.samples.length := by omega
    rw [chapterStart_none t j (by omega), hjn, Nat.mod_self]
    exact first_of_track t ho nextTimeMediaSample (-1) (by decide)

theorem first_step (t : TextTrack) (ho : TimeOrdered t) (time : Int) :
    (QTText_GetFirstChapterTime (some t) time).2 = chapterStart t 0 := by
  simp only [QTText_GetFirstChapterTime]
  exact first_of_track t ho (nextTimeMediaSample + nextTimeEdgeOK) 0 (by decide)

theorem indChapterTimeLoop_walk (t : TextTrack) (ho : TimeOrdered t) (theIndex : Int) :
    ∀ (k c j : Nat), (c : Int) + (k : Int) = theIndex → j ≤ t.samples.length →
      indChapterTimeLoop (some t) theIndex k (c : Int) (chapterStart t j) =
        chapterStart t ((j + k) % (t.samples.length + 1)) := by
  intro k
  induction k with
  | zero =>
    intro c j _ hj
    simp only [indChapterTimeLoop, Nat.add_zero]
    rw [Nat.mod_eq_of_lt (by omega)]
  | succ k ih =>
    intro c j hc hj
    have hlt : (c : Int) < theIndex := by omega
    simp only [indChapterTimeLoop, hlt, if_true]
    rw [next_step t ho j hj]
    have h := ih (c + 1) ((j + 1) % (t.samples.length + 1)) (by push_cast; omega)
      (by have := Nat.mod_lt (j + 1) (Nat.succ_pos t.samples.length)
          exact Nat.le_of_lt_succ this)
    rw [Nat.cast_add, Nat.cast_one] at h
    rw [h]
    congr 1
    rw [Nat.mod_add_mod]
    congr 1
    omega

/-- The walk of `QTText_GetIndChapterTime` on a track in time order: index `i ≥ 1` yields the
entry at position `(i - 1) mod (n + 1)` of the start times followed by -1. -/
theorem getIndChapterTime_walk (t : TextTrack) (ho : TimeOrdered t) (i : Int) (hi : 1 ≤ i) :
    QTText_GetIndChapterTime (some t) i =
      chapterStart t ((i - 1).toNat % (t.samples.length + 1)) := by
  unfold QTText_GetIndChapterTime
  have h1 : ¬ (i < 1) := by omega
  simp only [Option.isNone_some, h1, decide_False, Bool.or_self, Bool.false_eq_true, if_false]
  rw [first_step t ho]
  by_cases h : i = 1
  · subst h
    simp
  · simp only [h, if_false]
    have := indChapterTimeLoop_walk t ho i (i - 1).toNat 1 0 (by push_cast; omega) (by omega)
    rw [Nat.cast_one] at this
    rw [this, Nat.zero_add]

theorem chapterCountLoop_walk (t : TextTrack) (ho : TimeOrdered t) :
    ∀ (fuel j : Nat) (c : Int), j ≤ t.samples.length → t.samples.length - j < fuel →
      chapterCountLoop (some t) fuel c (chapterStart t j) =
        some (c + ((t.samples.length - j : Nat) : Int)) := by
  intro fuel
  induction fuel with
  | zero => intro j c _ h; omega
  | succ fuel ih =>
    intro j c hj hfuel
    by_cases hlt : j < t.samples.length
    · have hne : chapterStart t j ≠ kBogusStartingTime := by
        have := chapterStart_nonneg t ho j hlt
        unfold kBogusStartingTime
        omega
      simp only [chapterCountLoop, hne, ne_eq, not_false_eq_true, if_true]
      rw [next_step t ho j hj, Nat.mod_eq_of_lt (by omega)]
      rw [ih (j + 1) (c + 1) (by omega) (by omega)]
      congr 1
      omega
    · have hjn : j = t.samples.length := by omega
      have he : chapterStart t j = kBogusStartingTime := chapterStart_none t j (by omega)
      simp only [chapterCountLoop, he, ne_eq, not_true_eq_false, if_false]
      congr 1
      simp [hjn]

/-! ## The text sample round trip -/

/-- C1: for every text of at most 255 bytes, held as a Pascal string in `mySampleText`
(whatever follows it in the buffer), the sample `QTText_AddTextTrack` builds from it is
decoded by `QTText_TextProc` without a fault, on either byte order, and afterwards
`gSampleText[0]` is the length of the text and `gSampleText[1..length]` are its bytes. -/
theorem C1_textproc_roundtrip (host : ByteOrder) (text pad g : List Nat)
    (hlen : text.length ≤ 255) (hg : g.length = 256) :
    ∃ out, QTText_TextProc host
        (QTText_AddTextTrack_sample host (text.length :: (text ++ pad))) g = some out ∧
      out.result = OSErr.noErr ∧
      out.gSampleText.length = 256 ∧
      out.gSampleText[0]? = some text.length ∧
      (out.gSampleText.drop 1).take text.length = text := by
  rw [sample_of_pascal host text pad hlen]
  have hsz : toShort (EndianU16_BtoN host (loadU16 host 0 text.length)) = (text.length : Int) := by
    rw [BtoN_loadU16]
    have : 0 % 256 * 256 + text.length % 256 = text.length := by omega
    rw [this]
    exact toShort_small _ (by omega)
  obtain ⟨g2, h1, h2, h3, _⟩ :=
    textProcLoop_spec (0 :: text.length :: text) text text.length hlen rfl
      (by intro j _; simp) text.length 1 g (by omega) (by omega) hg
  refine ⟨{ gSampleText := g2.set 0 text.length, theDisplayFlag := txtProcDefaultDisplay,
            result := OSErr.noErr }, ?_, rfl, ?_, ?_, ?_⟩
  · simp only [QTText_TextProc, hsz, Int.toNat_ofNat, h1]
    rw [toUChar_small _ (by omega)]
  · simp [h2]
  · exact List.getElem?_set_self (by omega)
  · apply List.ext_getElem?
    intro j
    by_cases hj : j < text.length
    · rw [List.getElem?_take_of_lt hj, List.getElem?_drop,
        List.getElem?_set_ne (by omega)]
      have := h3 (1 + j) (by omega) (by omega)
      rw [this]
      congr 1
      omega
    · rw [List.getElem?_take_eq_none (by omega)]
      exact (List.getElem?_eq_none (by omega)).symm

theorem C1_textproc_roundtrip_witness :
    ∃ out, QTText_TextProc ByteOrder.little
        (QTText_AddTextTrack_sample ByteOrder.little
          ([73, 110, 116, 114, 111].length :: ([73, 110, 116, 114, 111] ++ [0]))) (List.replicate 256 0)
        = some out ∧
      out.result = OSErr.noErr ∧
      out.gSampleText.length = 256 ∧
      out.gSampleText[0]? = some [73, 110, 116, 114, 111].length ∧
      (out.gSampleText.drop 1).take [73, 110, 116, 114, 111].length = [73, 110, 116, 114, 111] :=
  C1_textproc_roundtrip ByteOrder.little [73, 110, 116, 114, 111] [0] (List.replicate 256 0)
    (by decide) (List.length_replicate 256 0)

/-! ## The chapter list of a chapter track -/

theorem timeOrdered_of_zero (t : TextTrack)
    (hinc : t.samples.Pairwise (fun a b => a.startTime < b.startTime))
    (hzero : ∀ s, t.samples.head? = some s → s.startTime = 0) : TimeOrdered t := by
  refine ⟨?_, hinc⟩
  cases hl : t.samples with
  | nil => intro s hs; simp at hs
  | cons a l =>
    rw [hl] at hinc hzero
    have ha : a.startTime = 0 := hzero a rfl
    rw [List.pairwise_cons] at hinc
    intro s hs
    rcases List.mem_cons.mp hs with h | h
    · rw [h, ha]
    · have := hinc.1 s h
      omega

/-- C2: for every chapter track whose samples have strictly increasing start times
beginning at time 0, `QTText_GetChapterCount` ends (as soon as its loop condition may be
evaluated once more than there are samples) and returns exactly the number of samples; it
returns 0 for an empty track, and 0 for a `NULL` track. -/
theorem C2_chapter_count (t : TextTrack) (fuel : Nat)
    (hinc : t.samples.Pairwise (fun a b => a.startTime < b.startTime))
    (hzero : ∀ s, t.samples.head? = some s → s.startTime = 0)
    (hfuel : t.samples.length < fuel) :
    QTText_GetChapterCount fuel (some t) = some (t.samples.length : Int) ∧
      (t.samples = [] → QTText_GetChapterCount fuel (some t) = some 0) ∧
      (∀ f, QTText_GetChapterCount f none = some 0) := by
  have ho := timeOrdered_of_zero t hinc hzero
  have main : QTText_GetChapterCount fuel (some t) = some (t.samples.length : Int) := by
    simp only [QTText_GetChapterCount]
    rw [first_step t ho, chapterCountLoop_walk t ho fuel 0 0 (by omega) (by omega)]
    simp
  refine ⟨main, ?_, ?_⟩
  · intro he
    rw [main, he]
    rfl
  · intro f
    rfl

/-- C2, on the track of the example scenario: three chapters. -/
theorem C2_chapter_count_witness :
    QTText_GetChapterCount 4 (some exampleTrack) = some (exampleTrack.samples.length : Int) ∧
      (exampleTrack.samples = [] → QTText_GetChapterCount 4 (some exampleTrack) = some 0) ∧
      (∀ f, QTText_GetChapterCount f none = some 0) :=
  C2_chapter_count exampleTrack 4 (by simp [exampleTrack]) (by simp [exampleTrack])
    (by simp [exampleTrack])

/-- C3: for every chapter track with `n` samples in time order and every index `i` with
`1 ≤ i ≤ n`, `QTText_GetIndChapterTime (track, i)` is the start time of the `i`-th
sample. -/
theorem C3_ind_chapter_time (t : TextTrack) (i : Int) (ho : TimeOrdered t)
    (h1 : 1 ≤ i) (h2 : i ≤ (t.samples.length : Int)) :
    (t.samples[(i - 1).toNat]?).map (fun s => s.startTime) =
      some (QTText_GetIndChapterTime (some t) i) := by
  rw [getIndChapterTime_walk t ho i h1]
  have hlt : (i - 1).toNat < t.samples.length := by omega
  rw [Nat.mod_eq_of_lt (by omega)]
  unfold chapterStart
  rw [List.getElem?_eq_getElem hlt]
  rfl

/-- C3, on the samples starting at 0, 10 and 25: index 2 gives 10. -/
theorem C3_ind_chapter_time_witness :
    (exampleTrack.samples[((2 : Int) - 1).toNat]?).map (fun s => s.startTime) =
        some (QTText_GetIndChapterTime (some exampleTrack) 2) ∧
      QTText_GetIndChapterTime (some exampleTrack) 2 = 10 :=
  ⟨C3_ind_chapter_time exampleTrack 2 (by simp [TimeOrdered, exampleTrack]) (by decide)
    (by decide), by decide⟩

/-- Indices the walk handles as the sentinel: below 1, and exactly one past the last
chapter. -/
theorem getIndChapterTime_sentinel (t : TextTrack) (ho : TimeOrdered t) (i : Int)
    (hi : i < 1 ∨ i = (t.samples.length : Int) + 1) :
    QTText_GetIndChapterTime (some t) i = kBogusStartingTime := by
  rcases hi with h | h
  · unfold QTText_GetIndChapterTime
    simp [h]
  · rw [getIndChapterTime_walk t ho i (by omega)]
    have e : (i - 1).toNat = t.samples.length := by omega
    rw [e, Nat.mod_eq_of_lt (by omega)]
    exact chapterStart_none t _ (Nat.le_refl _)

/-- Two past the last chapter the walk asks `GetTrackNextInterestingTime` for the sample
after time -1. The source does not say what the toolbox answers from a negative time; with
the forward search as defined here the answer is the first sample, and the walk is back at
the first chapter. -/
theorem getIndChapterTime_wraps (t : TextTrack) (ho : TimeOrdered t) :
    QTText_GetIndChapterTime (some t) ((t.samples.length : Int) + 2) = chapterStart t 0 := by
  rw [getIndChapterTime_walk t ho _ (by omega)]
  have e : ((t.samples.length : Int) + 2 - 1).toNat = t.samples.length + 1 := by omega
  rw [e, Nat.mod_self]

/-! ## The text of a chapter -/

theorem find_current (l : List TextSample)
    (hpos : ∀ s ∈ l, 0 < s.duration)
    (hno : l.Pairwise (fun a b => a.startTime + a.duration ≤ b.startTime)) :
    ∀ (j : Nat) (s : TextSample), l[j]? = some s →
      l.find? (fun x => decide (x.startTime ≤ s.startTime) &&
        decide (s.startTime < x.startTime + x.duration)) = some s := by
  induction l with
  | nil => intro j s h; simp at h
  | cons a l ih =>
    intro j s h
    rw [List.pairwise_cons] at hno
    cases j with
    | zero =>
      simp only [List.getElem?_cons_zero, Option.some.injEq] at h
      subst h
      have := hpos a (List.mem_cons_self _ _)
      have h2 : a.startTime < a.startTime + a.duration := by omega
      simp [List.find?_cons, h2]
    | succ j =>
      simp only [List.getElem?_cons_succ] at h
      have hmem : s ∈ l := List.getElem?_mem h
      have hle : a.startTime + a.duration ≤ s.startTime := hno.1 s hmem
      have hna : ¬ s.startTime < a.startTime + a.duration := by omega
      simp only [List.find?_cons, hna, decide_False, Bool.and_false]
      exact ih (fun x hx => hpos x (List.mem_cons_of_mem _ hx)) hno.2 j s h

theorem chapterTextSize_big (n : Nat) (hn : n < 32768) :
    chapterTextSize ByteOrder.big (n / 256) (n % 256) = (n : Int) := by
  unfold chapterTextSize loadU16
  have h : n / 256 % 256 * 256 + n % 256 % 256 = n := by omega
  simp only [h]
  exact toShort_small n hn

/-- On a little-endian host the length word `00 L` of a text of 1 to 127 bytes is read
as `256 * L`. -/
theorem chapterTextSize_little (n : Nat) (hn : n < 128) :
    chapterTextSize ByteOrder.little 0 n = (256 * n : Int) := by
  unfold chapterTextSize loadU16
  have h : n % 256 * 256 + 0 % 256 = 256 * n := by omega
  simp only [h]
  rw [toShort_small _ (by omega)]
  push_cast
  rfl

/-- On a big-endian host, for a track in time order whose samples do not overlap, a valid
index yields a fresh copy of the text of that sample followed by a zero byte, the text
being the bytes the length word counts. -/
theorem getIndChapterText_big (t : TextTrack) (ho : TimeOrdered t) (hn : NonOverlapping t)
    (i : Int) (h1 : 1 ≤ i) (h2 : i ≤ (t.samples.length : Int))
    (s : TextSample) (hs : t.samples[(i - 1).toNat]? = some s)
    (text extra : List Nat)
    (hdata : s.data = (text.length / 256) :: (text.length % 256) :: (text ++ extra))
    (hlen : text.length < 32768) :
    QTText_GetIndChapterText ByteOrder.big (some t) i = Outcome.value (some (text ++ [0])) := by
  have hlt : (i - 1).toNat < t.samples.length := by omega
  have htime : QTText_GetIndChapterTime (some t) i = s.startTime := by
    rw [getIndChapterTime_walk t ho i h1, Nat.mod_eq_of_lt (by omega)]
    unfold chapterStart
    rw [hs]
  have hnonneg : 0 ≤ s.startTime := ho.1 s (List.getElem?_mem hs)
  have hne : s.startTime ≠ kBogusStartingTime := by
    unfold kBogusStartingTime
    omega
  have hsample : GetMediaSample t s.startTime =
      some ((text.length / 256) :: (text.length % 256) :: (text ++ extra)) := by
    unfold GetMediaSample
    rw [find_current t.samples hn.1 hn.2 _ s hs]
    simp [hdata]
  have hmove : BlockMove ((text.length / 256) :: (text.length % 256) :: (text ++ extra)) 2
      (text.length : Int) = some text := by
    unfold BlockMove
    have hc : 0 ≤ (text.length : Int) ∧ 2 + (text.length : Int).toNat ≤
        ((text.length / 256) :: (text.length % 256) :: (text ++ extra)).length := by
      constructor
      · omega
      · simp only [Int.toNat_ofNat, List.length_cons, List.length_append]
        omega
    rw [if_pos hc]
    simp
  have hi : ¬ i < 1 := by omega
  simp only [QTText_GetIndChapterText, hi, if_false, htime, hne, ne_eq, not_false_eq_true,
    if_true, hsample, chapterTextSize_big _ hlen, hmove]

/-- C5 (the code at the failing input): on a little-endian host the sample
`00 05 "Intro"` is decoded by `QTText_TextProc` with length 5, while
`QTText_GetIndChapterText` reads the length word as 1280 and copies from beyond the sample;
on a big-endian host it returns the five bytes and the terminating zero. -/
theorem C5_length_read_in_host_order :
    (QTText_TextProc ByteOrder.little [0, 5, 73, 110, 116, 114, 111]
        (List.replicate 256 0)).map (fun o => o.gSampleText.take 6) =
        some [5, 73, 110, 116, 114, 111] ∧
      chapterTextSize ByteOrder.little 0 5 = 1280 ∧
      QTText_GetIndChapterText ByteOrder.little (some exampleTrack) 1 = Outcome.memoryFault ∧
      QTText_GetIndChapterText ByteOrder.big (some exampleTrack) 1 =
        Outcome.value (some [73, 110, 116, 114, 111, 0]) := by
  refine ⟨?_, ?_, ?_, ?_⟩
  · rfl
  · decide
  · decide
  · decide

/-! ## Lemmas: chapter-list references -/

@[simp]
theorem updateTrackRefs_id (c : Nat) (f : List Nat → List Nat) (r : TrackRecord) :
    (updateTrackRefs c f r).id = r.id := by
  unfold updateTrackRefs
  split <;> rfl

@[simp]
theorem updateTrackRefs_mediaType (c : Nat) (f : List Nat → List Nat) (r : TrackRecord) :
    (updateTrackRefs c f r).mediaType = r.mediaType := by
  unfold updateTrackRefs
  split <;> rfl

@[simp]
theorem updateTrackRefs_enabled (c : Nat) (f : List Nat → List Nat) (r : TrackRecord) :
    (updateTrackRefs c f r).enabled = r.enabled := by
  unfold updateTrackRefs
  split <;> rfl

theorem find_updateTrackRefs (c : Nat) (f : List Nat → List Nat) (l : List TrackRecord) :
    (l.map (updateTrackRefs c f)).find? (fun r => r.id == c) =
      (l.find? (fun r => r.id == c)).map (fun r => { r with chapterRefs := f r.chapterRefs }) := by
  induction l with
  | nil => rfl
  | cons a l ih =>
    by_cases h : a.id = c
    · simp [List.find?_cons, h, updateTrackRefs]
    · have h2 : (a.id == c) = false := by simp [h]
      simp only [List.map_cons, List.find?_cons, updateTrackRefs_id, h2]
      exact ih

theorem chapterRefsOf_updateRefs (m : MovieRecord) (c : Nat) (f : List Nat → List Nat)
    (hc : (findTrack m (some c)).isSome) :
    chapterRefsOf (updateRefs m c f) c = f (chapterRefsOf m c) := by
  unfold chapterRefsOf findTrack updateRefs at *
  simp only [find_updateTrackRefs]
  cases h : m.tracks.find? (fun r => r.id == c) with
  | none => simp [h] at hc
  | some r => rfl

theorem findTrack_updateRefs_isSome (m : MovieRecord) (c : Nat) (f : List Nat → List Nat) :
    (findTrack (updateRefs m c f) (some c)).isSome = (findTrack m (some c)).isSome := by
  unfold findTrack updateRefs
  simp only [find_updateTrackRefs]
  cases m.tracks.find? (fun r => r.id == c) <;> rfl

theorem indTrackType_updateRefs (m : MovieRecord) (c : Nat) (f : List Nat → List Nat)
    (index : Int) (trackType flags : Nat) :
    GetMovieIndTrackType (updateRefs m c f) index trackType flags =
      GetMovieIndTrackType m index trackType flags := by
  unfold GetMovieIndTrackType updateRefs
  split
  · rw [List.filter_map, List.getElem?_map, Option.map_map]
    have hp : ((fun r : TrackRecord => r.mediaType == trackType &&
        (flags / movieTrackEnabledOnly % 2 == 0 || r.enabled)) ∘ updateTrackRefs c f) =
        (fun r : TrackRecord => r.mediaType == trackType &&
          (flags / movieTrackEnabledOnly % 2 == 0 || r.enabled)) := by
      funext r
      simp
    have hid : ((fun r : TrackRecord => r.id) ∘ updateTrackRefs c f) =
        (fun r : TrackRecord => r.id) := by
      funext r
      simp
    rw [hp, hid]
  · rfl

theorem findTrack_of_indTrackType (m : MovieRecord) (index : Int) (trackType flags c : Nat)
    (h : GetMovieIndTrackType m index trackType flags = some c) :
    (findTrack m (some c)).isSome := by
  unfold GetMovieIndTrackType at h
  split at h
  · rw [Option.map_eq_some'] at h
    obtain ⟨r, hr, hid⟩ := h
    have hmem : r ∈ m.tracks := (List.mem_filter.mp (List.getElem?_mem hr)).1
    unfold findTrack
    rw [List.find?_isSome]
    exact ⟨r, hmem, by simp [hid]⟩
  · simp at h

theorem getTrackReference_first (m : MovieRecord) (c : Nat) :
    GetTrackReference m (some c) 1 = (chapterRefsOf m c).head? := by
  unfold GetTrackReference chapterRefsOf
  cases findTrack m (some c) with
  | none => rfl
  | some r =>
    simp only [Int.sub_self, Int.toNat_zero, le_refl, if_true]
    cases r.chapterRefs <;> simp

theorem getTrackReferenceCount_eq (m : MovieRecord) (c : Nat) :
    GetTrackReferenceCount m (some c) = ((chapterRefsOf m c).length : Int) := by
  unfold GetTrackReferenceCount chapterRefsOf
  cases findTrack m (some c) <;> rfl

/-- What `QTText_SetTextTrackAsChapterTrack (window, type, true)` does once its
preconditions hold: one reference to the text track is added after the existing ones of
the content track, and the window is stamped dirty. -/
theorem setChapterTrack_true (w : WindowObjectRecord) (a : ApplicationDataRecord)
    (m : MovieRecord) (mc theType c t : Nat)
    (ha : w.fAppData = some a) (hm : w.fMovie = some m) (hmc : w.fController = some mc)
    (hc : GetMovieIndTrackType m 1 theType (movieTrackMediaType ||| movieTrackEnabledOnly) =
      some c)
    (ht : a.fTextTrack = some t) :
    QTText_SetTextTrackAsChapterTrack (some w) theType true =
      (OSErr.noErr,
        some { w with fMovie := some (updateRefs m c (fun refs => refs ++ [t])),
                      fIsDirty := true }) := by
  have hf := findTrack_of_indTrackType m 1 theType _ c hc
  obtain ⟨r, hr⟩ := Option.isSome_iff_exists.mp hf
  simp [QTText_SetTextTrackAsChapterTrack, QTFrame_GetAppDataFromWindowObject, ha, hm, hmc,
    hc, ht, AddTrackReference, hr]

/-- What `QTText_SetTextTrackAsChapterTrack (window, type, false)` does once its
preconditions hold: the first reference of the content track is removed if there is one
(an error otherwise), and the window is stamped dirty either way. -/
theorem setChapterTrack_false (w : WindowObjectRecord) (a : ApplicationDataRecord)
    (m : MovieRecord) (mc theType c t : Nat)
    (ha : w.fAppData = some a) (hm : w.fMovie = some m) (hmc : w.fController = some mc)
    (hc : GetMovieIndTrackType m 1 theType (movieTrackMediaType ||| movieTrackEnabledOnly) =
      some c)
    (ht : a.fTextTrack = some t) :
    QTText_SetTextTrackAsChapterTrack (some w) theType false =
      if chapterRefsOf m c ≠ [] then
        (OSErr.noErr,
          some { w with fMovie := some (updateRefs m c (fun refs => refs.eraseIdx 0)),
                        fIsDirty := true })
      else (OSErr.badTrackIndex, some { w with fMovie := some m, fIsDirty := true }) := by
  have hf := findTrack_of_indTrackType m 1 theType _ c hc
  obtain ⟨r, hr⟩ := Option.isSome_iff_exists.mp hf
  have hrefs : chapterRefsOf m c = r.chapterRefs := by simp [chapterRefsOf, hr]
  rw [hrefs]
  cases hl : r.chapterRefs with
  | nil =>
    simp [QTText_SetTextTrackAsChapterTrack, QTFrame_GetAppDataFromWindowObject, ha, hm, hmc,
      hc, ht, DeleteTrackReference, hr, hl]
  | cons u us =>
    simp [QTText_SetTextTrackAsChapterTrack, QTFrame_GetAppDataFromWindowObject, ha, hm, hmc,
      hc, ht, DeleteTrackReference, hr, hl]

theorem trackTypeHasAChapterTrack_eq (m : MovieRecord) (theType c : Nat)
    (hc : GetMovieIndTrackType m 1 theType (movieTrackMediaType ||| movieTrackEnabledOnly) =
      some c) :
    QTText_TrackTypeHasAChapterTrack m theType = QTText_TrackHasAChapterTrack m (some c) := by
  simp [QTText_TrackTypeHasAChapterTrack, QTText_TrackHasAChapterTrack, hc]

theorem head_append_singleton (refs : List Nat) (t : Nat) :
    (refs ++ [t]).head? = some (refs.head?.getD t) := by
  cases refs <;> rfl

theorem head_eraseIdx_append (refs : List Nat) (t : Nat) :
    ((refs ++ [t]).eraseIdx 0).head?.isSome = refs.head?.isSome := by
  cases refs with
  | nil => rfl
  | cons u us => cases us <;> rfl

/-! ## Setting and clearing the chapter track -/

/-- C6 (as amended): for every window with application data, a movie, a controller, an
enabled track `c` of the given type and a text track `t`, after
`QTText_SetTextTrackAsChapterTrack (window, type, true)`, which returns `noErr`, the
chapter-list references of `c` are the ones it held before followed by one reference to
`t`; so the chapter track reported for `c` by `QTText_GetChapterTrackForTrack` is the one
reported before the call when there was one, and `t` when `c` had none. -/
theorem C6_set_then_get (w : WindowObjectRecord) (a : ApplicationDataRecord)
    (m : MovieRecord) (mc theType c t : Nat)
    (ha : w.fAppData = some a) (hm : w.fMovie = some m) (hmc : w.fController = some mc)
    (hc : GetMovieIndTrackType m 1 theType (movieTrackMediaType ||| movieTrackEnabledOnly) =
      some c)
    (ht : a.fTextTrack = some t) :
    ∃ m2, movieAfter (QTText_SetTextTrackAsChapterTrack (some w) theType true) = some m2 ∧
      (QTText_SetTextTrackAsChapterTrack (some w) theType true).1 = OSErr.noErr ∧
      chapterRefsOf m2 c = chapterRefsOf m c ++ [t] ∧
      QTText_GetChapterTrackForTrack m2 (some c) =
        some ((QTText_GetChapterTrackForTrack m (some c)).getD t) ∧
      (QTText_GetChapterTrackForTrack m (some c) = none →
        QTText_GetChapterTrackForTrack m2 (some c) = some t) := by
  have hf := findTrack_of_indTrackType m 1 theType _ c hc
  have hrefs : chapterRefsOf (updateRefs m c (fun refs => refs ++ [t])) c =
      chapterRefsOf m c ++ [t] := chapterRefsOf_updateRefs m c _ hf
  have key : QTText_GetChapterTrackForTrack (updateRefs m c (fun refs => refs ++ [t])) (some c) =
      some ((QTText_GetChapterTrackForTrack m (some c)).getD t) := by
    unfold QTText_GetChapterTrackForTrack
    rw [getTrackReference_first, getTrackReference_first, hrefs]
    exact head_append_singleton _ t
  refine ⟨updateRefs m c (fun refs => refs ++ [t]), ?_, ?_, hrefs, key, ?_⟩
  · rw [setChapterTrack_true w a m mc theType c t ha hm hmc hc ht]
    rfl
  · rw [setChapterTrack_true w a m mc theType c t ha hm hmc hc ht]
  · intro hnone
    rw [key, hnone]
    rfl

/-- C6, on a window whose video track has no chapter track yet: text track 2 is reported
afterwards. -/
theorem C6_set_then_get_witness :
    ∃ m2, movieAfter (QTText_SetTextTrackAsChapterTrack (some (exampleWindow [] (some 2)))
        VideoMediaType true) = some m2 ∧
      (QTText_SetTextTrackAsChapterTrack (some (exampleWindow [] (some 2)))
        VideoMediaType true).1 = OSErr.noErr ∧
      chapterRefsOf m2 1 = chapterRefsOf (exampleMovie []) 1 ++ [2] ∧
      QTText_GetChapterTrackForTrack m2 (some 1) =
        some ((QTText_GetChapterTrackForTrack (exampleMovie []) (some 1)).getD 2) ∧
      (QTText_GetChapterTrackForTrack (exampleMovie []) (some 1) = none →
        QTText_GetChapterTrackForTrack m2 (some 1) = some 2) :=
  C6_set_then_get (exampleWindow [] (some 2))
    { fMovieHasText := true, fTextIsChapter := false, fTextIsHREF := false,
      fTextTrack := some 2, fTextHandler := none }
    (exampleMovie []) 0 VideoMediaType 1 2 rfl rfl rfl (by decide) rfl

/-- C6 (as stated) fails: when the video track already refers to track 3, setting text
track 2 as the chapter track succeeds and leaves track 3 as the chapter track reported for
the video track; and on a window without movie controller the call is refused and no
chapter track is reported. -/
theorem C6_counterexample :
    GetMovieIndTrackType (exampleMovie [3]) 1 VideoMediaType
        (movieTrackMediaType ||| movieTrackEnabledOnly) = some 1 ∧
      (QTText_SetTextTrackAsChapterTrack (some (exampleWindow [3] (some 2)))
        VideoMediaType true).1 = OSErr.noErr ∧
      (movieAfter (QTText_SetTextTrackAsChapterTrack (some (exampleWindow [3] (some 2)))
        VideoMediaType true)).map (fun m2 => QTText_GetChapterTrackForTrack m2 (some 1)) =
        some (some 3) ∧
      (QTText_SetTextTrackAsChapterTrack
        (some { exampleWindow [] (some 2) with fController := none }) VideoMediaType true).1 =
        OSErr.paramErr ∧
      (movieAfter (QTText_SetTextTrackAsChapterTrack
        (some { exampleWindow [] (some 2) with fController := none })
        VideoMediaType true)).map (fun m2 => QTText_GetChapterTrackForTrack m2 (some 1)) =
        some none := by
  decide

/-- Setting and then clearing the chapter track on a window that passes every test of
`QTText_SetTextTrackAsChapterTrack`: both calls succeed, and the content track has a
chapter track afterwards exactly when it had one before. -/
theorem set_then_clear_ready (w : WindowObjectRecord) (a : ApplicationDataRecord)
    (m : MovieRecord) (mc theType c t : Nat)
    (ha : w.fAppData = some a) (hm : w.fMovie = some m) (hmc : w.fController = some mc)
    (hc : GetMovieIndTrackType m 1 theType (movieTrackMediaType ||| movieTrackEnabledOnly) =
      some c)
    (ht : a.fTextTrack = some t) :
    ∃ w1 w2 m2,
      QTText_SetTextTrackAsChapterTrack (some w) theType true = (OSErr.noErr, some w1) ∧
      QTText_SetTextTrackAsChapterTrack (some w1) theType false = (OSErr.noErr, some w2) ∧
      w2.fMovie = some m2 ∧
      GetMovieIndTrackType m2 1 theType (movieTrackMediaType ||| movieTrackEnabledOnly) =
        some c ∧
      QTText_TrackHasAChapterTrack m2 (some c) = QTText_TrackHasAChapterTrack m (some c) := by
  have hf := findTrack_of_indTrackType m 1 theType _ c hc
  let m1 := updateRefs m c (fun refs => refs ++ [t])
  let m2 := updateRefs m1 c (fun refs => refs.eraseIdx 0)
  let w1 : WindowObjectRecord := { w with fMovie := some m1, fIsDirty := true }
  have hc1 : GetMovieIndTrackType m1 1 theType (movieTrackMediaType ||| movieTrackEnabledOnly) =
      some c := by
    rw [indTrackType_updateRefs]; exact hc
  have hc2 : GetMovieIndTrackType m2 1 theType (movieTrackMediaType ||| movieTrackEnabledOnly) =
      some c := by
    rw [indTrackType_updateRefs]; exact hc1
  have hf1 : (findTrack m1 (some c)).isSome := by
    rw [findTrack_updateRefs_isSome]; exact hf
  have hrefs1 : chapterRefsOf m1 c = chapterRefsOf m c ++ [t] :=
    chapterRefsOf_updateRefs m c _ hf
  have hrefs2 : chapterRefsOf m2 c = (chapterRefsOf m c ++ [t]).eraseIdx 0 := by
    rw [← hrefs1]; exact chapterRefsOf_updateRefs m1 c _ hf1
  have hne : chapterRefsOf m1 c ≠ [] := by rw [hrefs1]; simp
  have hclear := setChapterTrack_false w1 a m1 mc theType c t ha rfl hmc hc1 ht
  rw [if_pos hne] at hclear
  have hhas : QTText_TrackHasAChapterTrack m2 (some c) =
      QTText_TrackHasAChapterTrack m (some c) := by
    unfold QTText_TrackHasAChapterTrack
    rw [getTrackReference_first, getTrackReference_first, hrefs2]
    exact head_eraseIdx_append _ t
  exact ⟨w1, { w1 with fMovie := some m2, fIsDirty := true }, m2,
    setChapterTrack_true w a m mc theType c t ha hm hmc hc ht, hclear, rfl, hc2, hhas⟩

/-- A window that fails one of the tests of `QTText_SetTextTrackAsChapterTrack` (no
application data, no controller, or no text track) is left as it is, with `paramErr`. -/
theorem setChapterTrack_refused (w : WindowObjectRecord) (theType : Nat) (isChapterTrack : Bool)
    (h : w.fAppData = none ∨ w.fController = none ∨
      ∃ a, w.fAppData = some a ∧ a.fTextTrack = none) :
    QTText_SetTextTrackAsChapterTrack (some w) theType isChapterTrack =
      (OSErr.paramErr, some w) := by
  rcases w with ⟨mv, mc, d, ad⟩
  simp only at h
  rcases h with h | h | ⟨a, h1, h2⟩
  · subst h
    simp [QTText_SetTextTrackAsChapterTrack, QTFrame_GetAppDataFromWindowObject]
  · subst h
    cases ad <;> cases mv <;>
      simp [QTText_SetTextTrackAsChapterTrack, QTFrame_GetAppDataFromWindowObject]
  · subst h1
    cases mv <;> cases mc <;>
      simp [QTText_SetTextTrackAsChapterTrack, QTFrame_GetAppDataFromWindowObject, h2]

/-- C7 (as amended): for every window with a movie that has an enabled track `c` of the
given type, when `c` holds no chapter-list reference before the calls, after
`QTText_SetTextTrackAsChapterTrack (window, type, true)` followed by
`QTText_SetTextTrackAsChapterTrack (window, type, false)` both
`QTText_TrackHasAChapterTrack` on `c` and `QTText_TrackTypeHasAChapterTrack` return
false; on a window with application data, a controller and a text track `t`, the first
call had made `t` the chapter track of `c`. -/
theorem C7_set_then_clear (w : WindowObjectRecord) (m : MovieRecord) (theType c : Nat)
    (hm : w.fMovie = some m)
    (hc : GetMovieIndTrackType m 1 theType (movieTrackMediaType ||| movieTrackEnabledOnly) =
      some c)
    (hno : QTText_TrackHasAChapterTrack m (some c) = false) :
    ∃ m2,
      movieAfter (QTText_SetTextTrackAsChapterTrack
        (QTText_SetTextTrackAsChapterTrack (some w) theType true).2 theType false) = some m2 ∧
      QTText_TrackHasAChapterTrack m2 (some c) = false ∧
      QTText_TrackTypeHasAChapterTrack m2 theType = false ∧
      (∀ (a : ApplicationDataRecord) (mc t : Nat), w.fAppData = some a →
        w.fController = some mc → a.fTextTrack = some t →
        (movieAfter (QTText_SetTextTrackAsChapterTrack (some w) theType true)).map
          (fun m1 => QTText_GetChapterTrackForTrack m1 (some c)) = some (some t)) := by
  have key : ∃ m2,
      movieAfter (QTText_SetTextTrackAsChapterTrack
        (QTText_SetTextTrackAsChapterTrack (some w) theType true).2 theType false) = some m2 ∧
      GetMovieIndTrackType m2 1 theType (movieTrackMediaType ||| movieTrackEnabledOnly) =
        some c ∧
      QTText_TrackHasAChapterTrack m2 (some c) = QTText_TrackHasAChapterTrack m (some c) := by
    have refused : (w.fAppData = none ∨ w.fController = none ∨
        ∃ a, w.fAppData = some a ∧ a.fTextTrack = none) → ∃ m2,
        movieAfter (QTText_SetTextTrackAsChapterTrack
          (QTText_SetTextTrackAsChapterTrack (some w) theType true).2 theType false) = some m2 ∧
        GetMovieIndTrackType m2 1 theType (movieTrackMediaType ||| movieTrackEnabledOnly) =
          some c ∧
        QTText_TrackHasAChapterTrack m2 (some c) = QTText_TrackHasAChapterTrack m (some c) := by
      intro h
      refine ⟨m, ?_, hc, rfl⟩
      rw [setChapterTrack_refused w theType true h, setChapterTrack_refused w theType false h]
      exact hm
    cases ha : w.fAppData with
    | none => exact refused (Or.inl ha)
    | some a =>
      cases hmc : w.fController with
      | none => exact refused (Or.inr (Or.inl hmc))
      | some mc =>
        cases ht : a.fTextTrack with
        | none => exact refused (Or.inr (Or.inr ⟨a, ha, ht⟩))
        | some t =>
          obtain ⟨w1, w2, m2, h1, h2, h3, h4, h5⟩ :=
            set_then_clear_ready w a m mc theType c t ha hm hmc hc ht
          refine ⟨m2, ?_, h4, h5⟩
          rw [h1, h2]
          exact h3
  obtain ⟨m2, h1, h2, h3⟩ := key
  refine ⟨m2, h1, by rw [h3, hno], ?_, ?_⟩
  · rw [trackTypeHasAChapterTrack_eq m2 theType c h2, h3, hno]
  · intro a mc t ha hmc ht
    have hf := findTrack_of_indTrackType m 1 theType _ c hc
    have hnil : chapterRefsOf m c = [] := by
      unfold QTText_TrackHasAChapterTrack at hno
      rw [getTrackReference_first] at hno
      cases hr : chapterRefsOf m c with
      | nil => rfl
      | cons x xs => simp [hr] at hno
    rw [setChapterTrack_true w a m mc theType c t ha hm hmc hc ht]
    simp only [movieAfter, Option.map_some', QTText_GetChapterTrackForTrack]
    rw [getTrackReference_first, chapterRefsOf_updateRefs m c _ hf, hnil]
    rfl

/-- C7, on a window whose video track has no chapter track at first. -/
theorem C7_set_then_clear_witness :
    QTText_TrackHasAChapterTrack (exampleMovie []) (some 1) = false ∧
    ∃ m2,
      movieAfter (QTText_SetTextTrackAsChapterTrack
        (QTText_SetTextTrackAsChapterTrack (some (exampleWindow [] (some 2)))
          VideoMediaType true).2 VideoMediaType false) = some m2 ∧
      QTText_TrackHasAChapterTrack m2 (some 1) = false ∧
      QTText_TrackTypeHasAChapterTrack m2 VideoMediaType = false ∧
      (∀ (a : ApplicationDataRecord) (mc t : Nat),
        (exampleWindow [] (some 2)).fAppData = some a →
        (exampleWindow [] (some 2)).fController = some mc → a.fTextTrack = some t →
        (movieAfter (QTText_SetTextTrackAsChapterTrack (some (exampleWindow [] (some 2)))
          VideoMediaType true)).map
          (fun m1 => QTText_GetChapterTrackForTrack m1 (some 1)) = some (some t)) :=
  ⟨by decide, C7_set_then_clear (exampleWindow [] (some 2)) (exampleMovie []) VideoMediaType 1
    rfl (by decide) (by decide)⟩

/-- C7 (as stated) fails: when the video track already refers to track 3, setting and then
clearing the chapter track leaves the video track with a chapter track (the text track 2,
the reference to track 3 being the one removed). -/
theorem C7_counterexample :
    (movieAfter (QTText_SetTextTrackAsChapterTrack
        (QTText_SetTextTrackAsChapterTrack (some (exampleWindow [3] (some 2)))
          VideoMediaType true).2 VideoMediaType false)).map
        (fun m2 => (QTText_TrackHasAChapterTrack m2 (some 1),
          QTText_TrackTypeHasAChapterTrack m2 VideoMediaType, chapterRefsOf m2 1)) =
      some (true, true, [2]) := by
  decide

/-- C8 (as amended): for every window with application data, a movie, a controller, an
enabled track `c` of the given type and a text track `t`, each call of
`QTText_SetTextTrackAsChapterTrack (window, type, true)` adds one reference to `t` after
the references `c` holds, so two calls leave two more than before; the chapter track
`QTText_GetChapterTrackForTrack` reports for `c` is the same after two calls as after
one. -/
theorem C8_set_twice (w : WindowObjectRecord) (a : ApplicationDataRecord)
    (m : MovieRecord) (mc theType c t : Nat)
    (ha : w.fAppData = some a) (hm : w.fMovie = some m) (hmc : w.fController = some mc)
    (hc : GetMovieIndTrackType m 1 theType (movieTrackMediaType ||| movieTrackEnabledOnly) =
      some c)
    (ht : a.fTextTrack = some t) :
    ∃ w1 w2 m1 m2,
      QTText_SetTextTrackAsChapterTrack (some w) theType true = (OSErr.noErr, some w1) ∧
      QTText_SetTextTrackAsChapterTrack (some w1) theType true = (OSErr.noErr, some w2) ∧
      w1.fMovie = some m1 ∧ w2.fMovie = some m2 ∧
      chapterRefsOf m1 c = chapterRefsOf m c ++ [t] ∧
      chapterRefsOf m2 c = chapterRefsOf m c ++ [t, t] ∧
      GetTrackReferenceCount m2 (some c) = GetTrackReferenceCount m (some c) + 2 ∧
      QTText_GetChapterTrackForTrack m2 (some c) =
        QTText_GetChapterTrackForTrack m1 (some c) := by
  have hf := findTrack_of_indTrackType m 1 theType _ c hc
  let m1 := updateRefs m c (fun refs => refs ++ [t])
  let m2 := updateRefs m1 c (fun refs => refs ++ [t])
  let w1 : WindowObjectRecord := { w with fMovie := some m1, fIsDirty := true }
  have hc1 : GetMovieIndTrackType m1 1 theType (movieTrackMediaType ||| movieTrackEnabledOnly) =
      some c := by
    rw [indTrackType_updateRefs]; exact hc
  have hf1 : (findTrack m1 (some c)).isSome := by
    rw [findTrack_updateRefs_isSome]; exact hf
  have hrefs1 : chapterRefsOf m1 c = chapterRefsOf m c ++ [t] :=
    chapterRefsOf_updateRefs m c _ hf
  have hrefs2 : chapterRefsOf m2 c = chapterRefsOf m c ++ [t, t] := by
    have := chapterRefsOf_updateRefs m1 c (fun refs => refs ++ [t]) hf1
    rw [hrefs1] at this
    simpa using this
  refine ⟨w1, { w1 with fMovie := some m2, fIsDirty := true }, m1, m2,
    setChapterTrack_true w a m mc theType c t ha hm hmc hc ht,
    setChapterTrack_true w1 a m1 mc theType c t ha rfl hmc hc1 ht, rfl, rfl, hrefs1, hrefs2,
    ?_, ?_⟩
  · rw [getTrackReferenceCount_eq, getTrackReferenceCount_eq, hrefs2]
    simp
  · unfold QTText_GetChapterTrackForTrack
    rw [getTrackReference_first, getTrackReference_first, hrefs1, hrefs2]
    cases chapterRefsOf m c <;> rfl

/-- C8, on a window whose video track has no chapter track at first. -/
theorem C8_set_twice_witness :
    ∃ w1 w2 m1 m2,
      QTText_SetTextTrackAsChapterTrack (some (exampleWindow [] (some 2))) VideoMediaType true =
        (OSErr.noErr, some w1) ∧
      QTText_SetTextTrackAsChapterTrack (some w1) VideoMediaType true =
        (OSErr.noErr, some w2) ∧
      w1.fMovie = some m1 ∧ w2.fMovie = some m2 ∧
      chapterRefsOf m1 1 = chapterRefsOf (exampleMovie []) 1 ++ [2] ∧
      chapterRefsOf m2 1 = chapterRefsOf (exampleMovie []) 1 ++ [2, 2] ∧
      GetTrackReferenceCount m2 (some 1) =
        GetTrackReferenceCount (exampleMovie []) (some 1) + 2 ∧
      QTText_GetChapterTrackForTrack m2 (some 1) =
        QTText_GetChapterTrackForTrack m1 (some 1) :=
  C8_set_twice (exampleWindow [] (some 2))
    { fMovieHasText := true, fTextIsChapter := false, fTextIsHREF := false,
      fTextTrack := some 2, fTextHandler := none }
    (exampleMovie []) 0 VideoMediaType 1 2 rfl rfl rfl (by decide) rfl

/-- C8 (as stated) fails: on a video track without chapter track, one call leaves the
references `[2]` and two calls leave `[2, 2]`, a different state with two chapter-list
references. -/
theorem C8_counterexample :
    (movieAfter (QTText_SetTextTrackAsChapterTrack (some (exampleWindow [] (some 2)))
        VideoMediaType true)).map (fun m1 => chapterRefsOf m1 1) = some [2] ∧
      (movieAfter (QTText_SetTextTrackAsChapterTrack
        (QTText_SetTextTrackAsChapterTrack (some (exampleWindow [] (some 2)))
          VideoMediaType true).2 VideoMediaType true)).map
        (fun m2 => (chapterRefsOf m2 1, GetTrackReferenceCount m2 (some 1))) =
        some ([2, 2], 2) := by
  decide

/-! ## Is a track a chapter track? -/

theorem find_of_mem (l : List TrackRecord) (hnd : (l.map (fun r => r.id)).Nodup)
    (r : TrackRecord) (hr : r ∈ l) : l.find? (fun x => x.id == r.id) = some r := by
  induction l with
  | nil => simp at hr
  | cons a l ih =>
    rw [List.map_cons, List.nodup_cons] at hnd
    rcases List.mem_cons.mp hr with h | h
    · subst h
      simp
    · have hne : a.id ≠ r.id := by
        intro he
        apply hnd.1
        rw [he]
        exact List.mem_map_of_mem (fun r => r.id) h
      have hb : (a.id == r.id) = false := by simp [hne]
      rw [List.find?_cons, hb]
      exact ih hnd.2 h

theorem findTrack_isSome_iff (m : MovieRecord) (t : Nat) :
    (findTrack m (some t)).isSome = true ↔ ∃ r ∈ m.tracks, r.id = t := by
  unfold findTrack
  rw [List.find?_isSome]
  simp

theorem refLoop_iff (m : MovieRecord) (c t : Nat) (r : TrackRecord)
    (hr : findTrack m (some c) = some r) :
    ∀ (k p : Nat), p + k = r.chapterRefs.length →
      (isChapterTrackRefLoop m (some c) (some t) (r.chapterRefs.length : Int) k ((p : Int) + 1)
        = true ↔ t ∈ r.chapterRefs.drop p) := by
  intro k
  induction k with
  | zero =>
    intro p hp
    have : r.chapterRefs.drop p = [] := List.drop_eq_nil_of_le (by omega)
    simp [isChapterTrackRefLoop, this]
  | succ k ih =>
    intro p hp
    have hlt : p < r.chapterRefs.length := by omega
    have hle : (p : Int) + 1 ≤ (r.chapterRefs.length : Int) := by omega
    have hget : GetTrackReference m (some c) ((p : Int) + 1) = some (r.chapterRefs[p]) := by
      have h1 : (1 : Int) ≤ (p : Int) + 1 := by omega
      have h2 : ((p : Int) + 1 - 1).toNat = p := by omega
      simp only [GetTrackReference, hr, h1, if_true, h2]
      exact List.getElem?_eq_getElem hlt
    have hdrop : r.chapterRefs.drop p = r.chapterRefs[p] :: r.chapterRefs.drop (p + 1) :=
      List.drop_eq_getElem_cons hlt
    have hih := ih (p + 1) (by omega)
    rw [Nat.cast_add, Nat.cast_one] at hih
    simp only [isChapterTrackRefLoop, hle, if_true, hget, Option.some.injEq, hdrop,
      List.mem_cons]
    by_cases hx : r.chapterRefs[p] = t
    · simp [hx]
    · simp only [hx, if_false, hih]
      constructor
      · intro h; exact Or.inr h
      · intro h
        rcases h with h | h
        · exact absurd h.symm hx
        · exact h

theorem trackLoop_iff (m : MovieRecord) (t : Nat)
    (hnd : (m.tracks.map (fun r => r.id)).Nodup) :
    ∀ (k p : Nat), p + k = m.tracks.length →
      (isChapterTrackLoop m (some t) (m.tracks.length : Int) k ((p : Int) + 1) = true ↔
        ∃ r ∈ m.tracks.drop p, r.id ≠ t ∧ t ∈ r.chapterRefs) := by
  intro k
  induction k with
  | zero =>
    intro p hp
    have : m.tracks.drop p = [] := List.drop_eq_nil_of_le (by omega)
    simp [isChapterTrackLoop, this]
  | succ k ih =>
    intro p hp
    have hlt : p < m.tracks.length := by omega
    have hle : (p : Int) + 1 ≤ (m.tracks.length : Int) := by omega
    have hget : GetMovieIndTrack m ((p : Int) + 1) = some (m.tracks[p]).id := by
      have h1 : (1 : Int) ≤ (p : Int) + 1 := by omega
      have h2 : ((p : Int) + 1 - 1).toNat = p := by omega
      simp only [GetMovieIndTrack, h1, if_true, h2]
      rw [List.getElem?_eq_getElem hlt]
      rfl
    have hdrop : m.tracks.drop p = m.tracks[p] :: m.tracks.drop (p + 1) :=
      List.drop_eq_getElem_cons hlt
    have hfind : findTrack m (some (m.tracks[p]).id) = some m.tracks[p] :=
      find_of_mem m.tracks hnd _ (List.getElem_mem _)
    have hcount : GetTrackReferenceCount m (some (m.tracks[p]).id) =
        ((m.tracks[p]).chapterRefs.length : Int) := by
      simp [GetTrackReferenceCount, hfind]
    have hih := ih (p + 1) (by omega)
    rw [Nat.cast_add, Nat.cast_one] at hih
    have href := refLoop_iff m (m.tracks[p]).id t m.tracks[p] hfind
      (m.tracks[p]).chapterRefs.length 0 (by omega)
    rw [Nat.cast_zero, Int.zero_add, List.drop_zero] at href
    simp only [isChapterTrackLoop, hle, if_true, hget, Option.isSome_some, Bool.true_and,
      hcount, Int.toNat_ofNat, hdrop, List.exists_mem_cons_iff, ne_eq, Option.some.injEq]
    by_cases hx : (m.tracks[p]).id = t
    · simp only [hx, not_true_eq_false, decide_False, Bool.false_eq_true, if_false, hih,
        false_and, false_or]
    · simp only [hx, not_false_eq_true, decide_True, if_true, true_and]
      by_cases hin : t ∈ (m.tracks[p]).chapterRefs
      · simp [href.mpr hin, hin]
      · have hfalse : isChapterTrackRefLoop m (some (m.tracks[p]).id) (some t)
            ((m.tracks[p]).chapterRefs.length : Int) (m.tracks[p]).chapterRefs.length 1
            = false := by
          cases hb : isChapterTrackRefLoop m (some (m.tracks[p]).id) (some t)
            ((m.tracks[p]).chapterRefs.length : Int) (m.tracks[p]).chapterRefs.length 1 with
          | false => rfl
          | true => exact absurd (href.mp hb) hin
        simp only [hfalse, Bool.false_eq_true, if_false, hih, hin, false_or]

/-- C9: for every movie (a list of tracks with distinct identities, each with a list of
chapter-list references) and every track `t` of that movie, `QTText_IsChapterTrack (t)` is
true if and only if some track of the movie other than `t` has a chapter-list reference,
at any reference index, that points at `t`; it is false when `t` belongs to no movie. -/
theorem C9_is_chapter_track (m : MovieRecord) (t : Nat)
    (hnd : (m.tracks.map (fun r => r.id)).Nodup) :
    ((∃ r ∈ m.tracks, r.id = t) →
      (QTText_IsChapterTrack m (some t) = true ↔
        ∃ r ∈ m.tracks, r.id ≠ t ∧ t ∈ r.chapterRefs)) ∧
    ((∀ r ∈ m.tracks, r.id ≠ t) → QTText_IsChapterTrack m (some t) = false) ∧
    QTText_IsChapterTrack m none = false := by
  refine ⟨?_, ?_, rfl⟩
  · intro hex
    obtain ⟨r, hr⟩ := Option.isSome_iff_exists.mp ((findTrack_isSome_iff m t).mpr hex)
    have h := trackLoop_iff m t hnd m.tracks.length 0 (by omega)
    rw [Nat.cast_zero, Int.zero_add, List.drop_zero] at h
    simp only [QTText_IsChapterTrack, GetTrackMovie, hr, GetMovieTrackCount, Int.toNat_ofNat]
    exact h
  · intro hno
    have hnone : findTrack m (some t) = none := by
      cases hf : findTrack m (some t) with
      | none => rfl
      | some r =>
        have hs : (findTrack m (some t)).isSome = true := by rw [hf]; rfl
        obtain ⟨x, hx, hid⟩ := (findTrack_isSome_iff m t).mp hs
        exact absurd hid (hno x hx)
    simp [QTText_IsChapterTrack, GetTrackMovie, hnone]

/-- C9, on a movie whose video track 1 refers to track 3: track 3 is a chapter track,
track 2 is not, and a track outside the movie is not. -/
theorem C9_is_chapter_track_witness :
    (((∃ r ∈ (exampleMovie [2, 3]).tracks, r.id = 3) →
        (QTText_IsChapterTrack (exampleMovie [2, 3]) (some 3) = true ↔
          ∃ r ∈ (exampleMovie [2, 3]).tracks, r.id ≠ 3 ∧ 3 ∈ r.chapterRefs)) ∧
      ((∀ r ∈ (exampleMovie [2, 3]).tracks, r.id ≠ 3) →
        QTText_IsChapterTrack (exampleMovie [2, 3]) (some 3) = false) ∧
      QTText_IsChapterTrack (exampleMovie [2, 3]) none = false) ∧
    QTText_IsChapterTrack (exampleMovie [2, 3]) (some 3) = true ∧
    QTText_IsChapterTrack (exampleMovie [2, 3]) (some 1) = false ∧
    QTText_IsChapterTrack (exampleMovie [2, 3]) (some 7) = false :=
  ⟨C9_is_chapter_track (exampleMovie [2, 3]) 3 (by decide), by decide, by decide, by decide⟩

/-! ## Operations given a `NULL` track -/

/-- C10 (as amended): given a `NULL` track, `QTText_GetFirstChapterTime` and
`QTText_GetNextChapterTime` return `invalidTrack` and store -1 in `*theTime` whatever it
held before; `QTText_SetTextTrackAsChapterTrack` on a window whose text track is `NULL`
returns `paramErr` and leaves the window object as it was. -/
theorem C10_null_track (time : Int) (w : WindowObjectRecord) (a : ApplicationDataRecord)
    (theType : Nat) (isChapterTrack : Bool) :
    QTText_GetFirstChapterTime none time = (OSErr.invalidTrack, kBogusStartingTime) ∧
    QTText_GetNextChapterTime none time = (OSErr.invalidTrack, kBogusStartingTime) ∧
    kBogusStartingTime = -1 ∧
    QTText_SetTextTrackAsChapterTrack
        (some { w with fAppData := some { a with fTextTrack := none } }) theType isChapterTrack =
      (OSErr.paramErr, some { w with fAppData := some { a with fTextTrack := none } }) := by
  refine ⟨rfl, rfl, rfl, ?_⟩
  simp only [QTText_SetTextTrackAsChapterTrack, QTFrame_GetAppDataFromWindowObject]
  cases w.fMovie <;> cases w.fController <;> simp

/-- C10 (as stated) fails: on a window whose text track is `NULL` the result of
`QTText_SetTextTrackAsChapterTrack` is `paramErr`, which is not the `invalidTrack` the
chapter-time functions return. -/
theorem C10_counterexample :
    (QTText_SetTextTrackAsChapterTrack (some (exampleWindow [] none)) VideoMediaType true).1 =
        OSErr.paramErr ∧
      (QTText_SetTextTrackAsChapterTrack (some (exampleWindow [] none)) VideoMediaType true).1 ≠
        (QTText_GetFirstChapterTime none 0).1 := by
  decide

/-! ## Refused calls and the dirty flag -/

/-- C18: `QTText_SetTextTrackAsChapterTrack` returns `paramErr` and leaves the window
object (its movie with every track reference, and its dirty flag) as it was when the window
object is `NULL` or has no application data, when its movie or controller is `NULL`, when
the movie has no enabled track of the requested type, or when the text track is `NULL`;
when it reaches the add or delete step the window is stamped dirty, also when the toolbox
call returns an error (as the delete does on a track without chapter-list reference). -/
theorem C18_set_chapter_track_atomic (w : WindowObjectRecord) (theType : Nat)
    (isChapterTrack : Bool) :
    QTText_SetTextTrackAsChapterTrack none theType isChapterTrack = (OSErr.paramErr, none) ∧
    ((w.fAppData = none ∨ w.fMovie = none ∨ w.fController = none ∨
        (∃ m, w.fMovie = some m ∧
          GetMovieIndTrackType m 1 theType (movieTrackMediaType ||| movieTrackEnabledOnly) =
            none) ∨
        (∃ a, w.fAppData = some a ∧ a.fTextTrack = none)) →
      QTText_SetTextTrackAsChapterTrack (some w) theType isChapterTrack =
        (OSErr.paramErr, some w)) ∧
    (∀ (a : ApplicationDataRecord) (m : MovieRecord) (mc c t : Nat),
      w.fAppData = some a → w.fMovie = some m → w.fController = some mc →
      GetMovieIndTrackType m 1 theType (movieTrackMediaType ||| movieTrackEnabledOnly) =
        some c →
      a.fTextTrack = some t →
      ∃ w2, (QTText_SetTextTrackAsChapterTrack (some w) theType isChapterTrack).2 = some w2 ∧
        w2.fIsDirty = true ∧
        (isChapterTrack = false → chapterRefsOf m c = [] →
          (QTText_SetTextTrackAsChapterTrack (some w) theType isChapterTrack).1 =
            OSErr.badTrackIndex ∧ w2.fMovie = some m)) := by
  refine ⟨rfl, ?_, ?_⟩
  · intro h
    rcases w with ⟨mv, mc, d, ad⟩
    simp only at h
    rcases h with h | h | h | ⟨m, h1, h2⟩ | ⟨a, h1, h2⟩
    · subst h
      simp [QTText_SetTextTrackAsChapterTrack, QTFrame_GetAppDataFromWindowObject]
    · subst h
      cases ad <;> cases mc <;>
        simp [QTText_SetTextTrackAsChapterTrack, QTFrame_GetAppDataFromWindowObject]
    · subst h
      cases ad <;> cases mv <;>
        simp [QTText_SetTextTrackAsChapterTrack, QTFrame_GetAppDataFromWindowObject]
    · subst h1
      cases ad <;> cases mc <;>
        simp [QTText_SetTextTrackAsChapterTrack, QTFrame_GetAppDataFromWindowObject, h2]
    · subst h1
      cases mv <;> cases mc <;>
        simp [QTText_SetTextTrackAsChapterTrack, QTFrame_GetAppDataFromWindowObject, h2]
  · intro a m mc c t ha hm hmc hc ht
    cases isChapterTrack with
    | true =>
      rw [setChapterTrack_true w a m mc theType c t ha hm hmc hc ht]
      exact ⟨_, rfl, rfl, fun h => absurd h (by decide)⟩
    | false =>
      rw [setChapterTrack_false w a m mc theType c t ha hm hmc hc ht]
      by_cases hrefs : chapterRefsOf m c = []
      · rw [if_neg (not_not.mpr hrefs)]
        exact ⟨_, rfl, rfl, fun _ _ => ⟨rfl, rfl⟩⟩
      · rw [if_pos hrefs]
        exact ⟨_, rfl, rfl, fun _ h => absurd h hrefs⟩

/-- C18, on the example window: without text track the call is refused and the window
is unchanged; with text track 2 and no reference to delete, the delete returns
`badTrackIndex` and the window is stamped dirty all the same. -/
theorem C18_set_chapter_track_atomic_witness :
    QTText_SetTextTrackAsChapterTrack (some (exampleWindow [] none)) VideoMediaType false =
        (OSErr.paramErr, some (exampleWindow [] none)) ∧
      ∃ w2, (QTText_SetTextTrackAsChapterTrack (some (exampleWindow [] (some 2)))
          VideoMediaType false).2 = some w2 ∧
        w2.fIsDirty = true ∧
        (false = false → chapterRefsOf (exampleMovie []) 1 = [] →
          (QTText_SetTextTrackAsChapterTrack (some (exampleWindow [] (some 2)))
            VideoMediaType false).1 = OSErr.badTrackIndex ∧
          w2.fMovie = some (exampleMovie [])) :=
  ⟨(C18_set_chapter_track_atomic (exampleWindow [] none) VideoMediaType false).2.1
      (Or.inr (Or.inr (Or.inr (Or.inr ⟨_, rfl, rfl⟩)))),
    (C18_set_chapter_track_atomic (exampleWindow [] (some 2)) VideoMediaType false).2.2
      { fMovieHasText := true, fTextIsChapter := false, fTextIsHREF := false,
        fTextTrack := some 2, fTextHandler := none }
      (exampleMovie []) 0 1 2 rfl rfl rfl (by decide) rfl⟩

/-! ## Chapter tracks of a movie -/

theorem getIndTrack_at (m : MovieRecord) (p : Nat) (hlt : p < m.tracks.length) :
    GetMovieIndTrack m ((p : Int) + 1) = some (m.tracks[p]).id := by
  have h1 : (1 : Int) ≤ (p : Int) + 1 := by omega
  have h2 : ((p : Int) + 1 - 1).toNat = p := by omega
  simp only [GetMovieIndTrack, h1, if_true, h2]
  rw [List.getElem?_eq_getElem hlt]
  rfl

theorem getTrackEnabled_of_mem (m : MovieRecord)
    (hnd : (m.tracks.map (fun r => r.id)).Nodup) (r : TrackRecord) (hr : r ∈ m.tracks) :
    GetTrackEnabled m (some r.id) = r.enabled := by
  have hfind : findTrack m (some r.id) = some r := find_of_mem m.tracks hnd r hr
  simp [GetTrackEnabled, hfind]

theorem chapterTrackForTrack_of_mem (m : MovieRecord)
    (hnd : (m.tracks.map (fun r => r.id)).Nodup) (r : TrackRecord) (hr : r ∈ m.tracks) :
    QTText_GetChapterTrackForTrack m (some r.id) = r.chapterRefs.head? := by
  have hfind : findTrack m (some r.id) = some r := find_of_mem m.tracks hnd r hr
  unfold QTText_GetChapterTrackForTrack
  rw [getTrackReference_first]
  simp [chapterRefsOf, hfind]

theorem chapterForMovieLoop_eq (m : MovieRecord)
    (hnd : (m.tracks.map (fun r => r.id)).Nodup) :
    ∀ (k p : Nat), p + k = m.tracks.length →
      getChapterTrackForMovieLoop m (m.tracks.length : Int) k ((p : Int) + 1) none =
        ((m.tracks.drop p).find? (fun r => r.enabled && r.chapterRefs.head?.isSome)).bind
          (fun r => r.chapterRefs.head?) := by
  intro k
  induction k with
  | zero =>
    intro p hp
    have : m.tracks.drop p = [] := List.drop_eq_nil_of_le (by omega)
    simp [getChapterTrackForMovieLoop, this]
  | succ k ih =>
    intro p hp
    have hlt : p < m.tracks.length := by omega
    have hle : (p : Int) + 1 ≤ (m.tracks.length : Int) := by omega
    have hdrop : m.tracks.drop p = m.tracks[p] :: m.tracks.drop (p + 1) :=
      List.drop_eq_getElem_cons hlt
    have hmem : m.tracks[p] ∈ m.tracks := List.getElem_mem _
    have hih := ih (p + 1) (by omega)
    rw [Nat.cast_add, Nat.cast_one] at hih
    simp only [getChapterTrackForMovieLoop, hle, if_true, getIndTrack_at m p hlt,
      getTrackEnabled_of_mem m hnd _ hmem, chapterTrackForTrack_of_mem m hnd _ hmem, hdrop,
      List.find?_cons]
    cases he : (m.tracks[p]).enabled with
    | false =>
      simp only [Bool.false_eq_true, if_false, Option.isSome_none, Bool.false_and, hih]
    | true =>
      cases hh : (m.tracks[p]).chapterRefs.head? with
      | none =>
        simp only [if_true, Option.isSome_none, Bool.false_eq_true, if_false, Bool.and_false,
          hih]
      | some u =>
        simp [hh]

theorem hasChapterLoop_eq (m : MovieRecord) :
    ∀ (k : Nat) (i : Int),
      movieHasAChapterTrackLoop m (m.tracks.length : Int) k i false =
        (getChapterTrackForMovieLoop m (m.tracks.length : Int) k i none).isSome := by
  intro k
  induction k with
  | zero => intro i; rfl
  | succ k ih =>
    intro i
    simp only [movieHasAChapterTrackLoop, getChapterTrackForMovieLoop,
      QTText_TrackHasAChapterTrack, QTText_GetChapterTrackForTrack]
    by_cases hle : i ≤ (m.tracks.length : Int)
    · simp only [hle, if_true]
      cases GetTrackEnabled m (GetMovieIndTrack m i) with
      | false =>
        simp only [Bool.false_eq_true, if_false, Option.isSome_none]
        exact ih (i + 1)
      | true =>
        simp only [if_true]
        cases hr : GetTrackReference m (GetMovieIndTrack m i) 1 with
        | none =>
          simp only [Option.isSome_none, Bool.false_eq_true, if_false]
          exact ih (i + 1)
        | some u => simp
    · simp [hle]

/-- C15: for every movie (tracks with distinct identities), `QTText_MovieHasAChapterTrack`
is true if and only if at least one enabled track of the movie has a chapter-list
reference: a disabled track with a chapter track does not make it true, and an enabled
track without one does not end the scan, wherever it stands. -/
theorem C15_movie_has_a_chapter_track (m : MovieRecord)
    (hnd : (m.tracks.map (fun r => r.id)).Nodup) :
    QTText_MovieHasAChapterTrack m = true ↔
      ∃ r ∈ m.tracks, r.enabled = true ∧ r.chapterRefs ≠ [] := by
  unfold QTText_MovieHasAChapterTrack GetMovieTrackCount
  simp only [Int.toNat_ofNat]
  rw [hasChapterLoop_eq m m.tracks.length 1]
  have h := chapterForMovieLoop_eq m hnd m.tracks.length 0 (by omega)
  rw [Nat.cast_zero, Int.zero_add, List.drop_zero] at h
  rw [h]
  constructor
  · intro hs
    cases hf : m.tracks.find? (fun r => r.enabled && r.chapterRefs.head?.isSome) with
    | none => rw [hf] at hs; simp at hs
    | some r =>
      have hp := List.find?_some hf
      have hmem := List.mem_of_find?_eq_some hf
      simp only [Bool.and_eq_true] at hp
      refine ⟨r, hmem, hp.1, ?_⟩
      intro hnil
      rw [hnil] at hp
      simp at hp
  · rintro ⟨r, hmem, he, hrefs⟩
    have hex : (m.tracks.find? (fun r => r.enabled && r.chapterRefs.head?.isSome)).isSome := by
      rw [List.find?_isSome]
      refine ⟨r, hmem, ?_⟩
      cases hc : r.chapterRefs with
      | nil => exact absurd hc hrefs
      | cons u us => simp [he]
    obtain ⟨r2, hr2⟩ := Option.isSome_iff_exists.mp hex
    have hp := List.find?_some hr2
    simp only [Bool.and_eq_true] at hp
    rw [hr2]
    exact hp.2

/-- C15, on three movies: a disabled track with a chapter track alone gives false; an
enabled track without one after a disabled track does not stop the scan, the enabled third
track makes it true. -/
theorem C15_movie_has_a_chapter_track_witness :
    (QTText_MovieHasAChapterTrack (threeTrackMovie false [3] true [] true [2]) = true ↔
      ∃ r ∈ (threeTrackMovie false [3] true [] true [2]).tracks,
        r.enabled = true ∧ r.chapterRefs ≠ []) ∧
    QTText_MovieHasAChapterTrack (threeTrackMovie false [3] true [] true [2]) = true ∧
    QTText_MovieHasAChapterTrack (threeTrackMovie false [3] true [] true []) = false :=
  ⟨C15_movie_has_a_chapter_track (threeTrackMovie false [3] true [] true [2]) (by decide),
    by decide, by decide⟩

/-- C16: for every movie (tracks with distinct identities),
`QTText_GetChapterTrackForMovie` returns the first chapter-list reference of the
lowest-indexed enabled track that has one, and `NULL` when no enabled track has one;
chapter tracks of disabled tracks are passed over. -/
theorem C16_chapter_track_for_movie (m : MovieRecord)
    (hnd : (m.tracks.map (fun r => r.id)).Nodup) :
    QTText_GetChapterTrackForMovie m =
        ((m.tracks.find? (fun r => r.enabled && r.chapterRefs.head?.isSome)).bind
          (fun r => r.chapterRefs.head?)) ∧
      ((∀ r ∈ m.tracks, r.enabled = true → r.chapterRefs = []) →
        QTText_GetChapterTrackForMovie m = none) := by
  have h := chapterForMovieLoop_eq m hnd m.tracks.length 0 (by omega)
  rw [Nat.cast_zero, Int.zero_add, List.drop_zero] at h
  have main : QTText_GetChapterTrackForMovie m =
      ((m.tracks.find? (fun r => r.enabled && r.chapterRefs.head?.isSome)).bind
        (fun r => r.chapterRefs.head?)) := by
    unfold QTText_GetChapterTrackForMovie GetMovieTrackCount
    simp only [Int.toNat_ofNat]
    exact h
  refine ⟨main, ?_⟩
  intro hno
  rw [main]
  have hnone : m.tracks.find? (fun r => r.enabled && r.chapterRefs.head?.isSome) = none := by
    rw [List.find?_eq_none]
    intro r hr
    cases he : r.enabled with
    | false => simp
    | true => simp [hno r hr he]
  rw [hnone]
  rfl

/-- C16, on three movies: the chapter track 3 of a disabled first track is passed over for
the chapter track 1 of the enabled third track (its first reference), and nothing is
returned when only a disabled track has a chapter track. -/
theorem C16_chapter_track_for_movie_witness :
    (QTText_GetChapterTrackForMovie (threeTrackMovie false [3] true [] true [1, 2]) =
        (((threeTrackMovie false [3] true [] true [1, 2]).tracks.find?
          (fun r => r.enabled && r.chapterRefs.head?.isSome)).bind
          (fun r => r.chapterRefs.head?)) ∧
      ((∀ r ∈ (threeTrackMovie false [3] true [] true [1, 2]).tracks,
          r.enabled = true → r.chapterRefs = []) →
        QTText_GetChapterTrackForMovie (threeTrackMovie false [3] true [] true [1, 2]) =
          none)) ∧
    QTText_GetChapterTrackForMovie (threeTrackMovie false [3] true [] true [1, 2]) = some 1 ∧
    QTText_GetChapterTrackForMovie (threeTrackMovie false [3] true [] true []) = none :=
  ⟨C16_chapter_track_for_movie (threeTrackMovie false [3] true [] true [1, 2]) (by decide),
    by decide, by decide⟩

/-! ## Conversion of a C string to a Pascal string -/

theorem cstring_get_lt (s rest : List Nat) (hs : ∀ b ∈ s, b ≠ 0) (i : Nat)
    (hi : i < s.length) :
    ∃ c, (s ++ 0 :: rest)[i]? = some c ∧ c ≠ 0 ∧ s[i]? = some c := by
  refine ⟨s[i], ?_, hs _ (List.getElem_mem _), List.getElem?_eq_getElem hi⟩
  rw [List.getElem?_append_left hi]
  exact List.getElem?_eq_getElem hi

theorem cstring_get_end (s rest : List Nat) : (s ++ 0 :: rest)[s.length]? = some 0 := by
  rw [List.getElem?_append_right (Nat.le_refl _)]
  simp

theorem copyApartLoop_spec (s rest : List Nat) (hs : ∀ b ∈ s, b ≠ 0) (n : Nat)
    (hn : n = min s.length 255) :
    ∀ (fuel i : Nat) (dst : List Nat), i ≤ n → i < 255 → 255 - i ≤ fuel →
      dst.length = 256 →
      ∃ out ev, copyApartLoop (s ++ 0 :: rest) fuel i (i + 1) (255 - (i : Int)) dst =
          some (out, 255 - (n : Int), ev) ∧
        out.length = 256 ∧
        (∀ j, i < j → j ≤ n → out[j]? = s[j - 1]?) ∧
        (∀ j, j ≤ i ∨ n < j → out[j]? = dst[j]?) ∧
        (∀ e ∈ ev, ∃ k, e = MemEvent.write k ∧ i < k ∧ k ≤ n) := by
  intro fuel
  induction fuel with
  | zero => intro i dst _ h1 h2; omega
  | succ fuel ih =>
    intro i dst hin hi hfuel hlen
    have hnl : n ≤ s.length := by omega
    have hn255 : n ≤ 255 := by omega
    by_cases his : i < s.length
    · obtain ⟨c, hc1, hc2, hc3⟩ := cstring_get_lt s rest hs i his
      have hdst : i + 1 < dst.length := by omega
      by_cases hlast : 255 - (i : Int) - 1 ≤ 0
      · have hi254 : i = 254 := by omega
        have hn2 : n = 255 := by omega
        refine ⟨dst.set (i + 1) c, [MemEvent.write (i + 1)], ?_, by simp [hlen], ?_, ?_, ?_⟩
        · simp only [copyApartLoop, hc1, hc2, ne_eq, not_false_eq_true, if_true, hdst, hlast]
          congr 3
          omega
        · intro j h1 h2
          have hj : j = i + 1 := by omega
          subst hj
          rw [List.getElem?_set_self hdst]
          simpa using hc3.symm
        · intro j hj
          rw [List.getElem?_set_ne (by omega)]
        · intro e he
          simp only [List.mem_singleton] at he
          exact ⟨i + 1, he, by omega, by omega⟩
      · have hcast : (255 : Int) - (i : Int) - 1 = 255 - ((i + 1 : Nat) : Int) := by
          push_cast; ring
        obtain ⟨out, ev, h1, h2, h3, h4, h5⟩ :=
          ih (i + 1) (dst.set (i + 1) c) (by omega) (by omega) (by omega) (by simp [hlen])
        refine ⟨out, MemEvent.write (i + 1) :: ev, ?_, h2, ?_, ?_, ?_⟩
        · have hlast2 : ¬ (255 - ((i + 1 : Nat) : Int) ≤ 0) := by
            rw [← hcast]; exact hlast
          simp only [copyApartLoop, hc1, hc2, ne_eq, not_false_eq_true, if_true, hdst, hcast,
            hlast2, if_false, h1]
        · intro j hj1 hj2
          by_cases hji : j = i + 1
          · subst hji
            rw [h4 (i + 1) (Or.inl (Nat.le_refl _)), List.getElem?_set_self hdst]
            simpa using hc3.symm
          · exact h3 j (by omega) hj2
        · intro j hj
          rw [h4 j (by omega), List.getElem?_set_ne (by omega)]
        · intro e he
          rcases List.mem_cons.mp he with he | he
          · exact ⟨i + 1, he, by omega, by omega⟩
          · obtain ⟨k, hk1, hk2, hk3⟩ := h5 e he
            exact ⟨k, hk1, by omega, hk3⟩
    · have hil : i = s.length := by omega
      have hni : n = i := by omega
      refine ⟨dst, [], ?_, hlen, ?_, ?_, ?_⟩
      · have hread : (s ++ 0 :: rest)[i]? = some 0 := by
          rw [hil]; exact cstring_get_end s rest
        simp only [copyApartLoop, hread, ne_eq, not_true_eq_false, if_false, hni]
      · intro j h1 h2; omega
      · intro j _; rfl
      · intro e he; simp at he

/-- What the branch for strings stored apart leaves in the destination. -/
theorem copyApart_result (s rest dst : List Nat) (hs : ∀ b ∈ s, b ≠ 0)
    (hd : dst.length = 256) :
    ∃ out ev, QTText_CopyCStringToPascal (CStringPtr.apart (s ++ 0 :: rest)) dst =
        some (out, ev) ∧
      out.length = 256 ∧
      out[0]? = some (min s.length 255) ∧
      (∀ j, 1 ≤ j → j ≤ min s.length 255 → out[j]? = s[j - 1]?) ∧
      (∀ j, min s.length 255 < j → out[j]? = dst[j]?) ∧
      (∀ e ∈ ev, ∃ k, e = MemEvent.write k ∧ k ≤ min s.length 255) := by
  obtain ⟨out, ev, h1, h2, h3, h4, h5⟩ :=
    copyApartLoop_spec s rest hs (min s.length 255) rfl 255 0 dst (by omega) (by omega)
      (by omega) hd
  rw [Nat.cast_zero, Int.sub_zero, Nat.zero_add] at h1
  have hlen : (255 : Int) - (255 - ((min s.length 255 : Nat) : Int)) =
      ((min s.length 255 : Nat) : Int) := by omega
  refine ⟨out.set 0 (min s.length 255), ev ++ [MemEvent.write 0], ?_, by simp [h2], ?_, ?_, ?_,
    ?_⟩
  · have hpos : 0 < out.length := by omega
    simp only [QTText_CopyCStringToPascal, h1, hpos, if_true, hlen]
    rw [toUChar_small _ (by omega)]
  · exact List.getElem?_set_self (by omega)
  · intro j hj1 hj2
    rw [List.getElem?_set_ne (by omega)]
    exact h3 j (by omega) hj2
  · intro j hj
    rw [List.getElem?_set_ne (by omega)]
    exact h4 j (Or.inr hj)
  · intro e he
    rcases List.mem_append.mp he with he | he
    · obtain ⟨k, hk1, _, hk3⟩ := h5 e he
      exact ⟨k, hk1, hk3⟩
    · simp only [List.mem_singleton] at he
      exact ⟨0, he, Nat.zero_le _⟩

theorem pascal_take_eq (out s : List Nat) (n : Nat)
    (h : ∀ j, 1 ≤ j → j ≤ n → out[j]? = s[j - 1]?) :
    (out.drop 1).take n = s.take n := by
  apply List.ext_getElem?
  intro j
  by_cases hj : j < n
  · rw [List.getElem?_take_of_lt hj, List.getElem?_take_of_lt hj, List.getElem?_drop,
      h (1 + j) (by omega) (by omega)]
    congr 1
    omega
  · rw [List.getElem?_take_eq_none (by omega), List.getElem?_take_eq_none (by omega)]

/-- C11: for every C string `s` (bytes other than zero, then a zero byte) stored apart
from the 256-byte destination, `QTText_CopyCStringToPascal` ends without a fault with
`dst[0] = min (L, 255)` and `dst[1..min (L, 255)]` the first `min (L, 255)` bytes of `s`;
every write to the destination is at an index of at most `min (L, 255)` and the bytes
after that index are as before; for `NULL` only `dst[0]` is written, with 0. -/
theorem C11_copy_cstring_apart (s rest dst : List Nat) (hs : ∀ b ∈ s, b ≠ 0)
    (hd : dst.length = 256) :
    (∃ out ev, QTText_CopyCStringToPascal (CStringPtr.apart (s ++ 0 :: rest)) dst =
        some (out, ev) ∧
      out.length = 256 ∧
      out[0]? = some (min s.length 255) ∧
      (out.drop 1).take (min s.length 255) = s.take (min s.length 255) ∧
      (∀ j, min s.length 255 < j → out[j]? = dst[j]?) ∧
      (∀ e ∈ ev, ∃ k, e = MemEvent.write k ∧ k ≤ min s.length 255)) ∧
    QTText_CopyCStringToPascal CStringPtr.null dst =
      some (dst.set 0 0, [MemEvent.write 0]) := by
  constructor
  · obtain ⟨out, ev, h1, h2, h3, h4, h5, h6⟩ := copyApart_result s rest dst hs hd
    exact ⟨out, ev, h1, h2, h3, pascal_take_eq out s _ h4, h5, h6⟩
  · have hpos : 0 < dst.length := by omega
    simp only [QTText_CopyCStringToPascal, hpos, if_true, List.nil_append]
    rfl

/-- C11, on the string "Hi" and on a string of 300 bytes. -/
theorem C11_copy_cstring_apart_witness :
    ((∃ out ev, QTText_CopyCStringToPascal
          (CStringPtr.apart (List.replicate 300 65 ++ 0 :: [])) (List.replicate 256 1) =
          some (out, ev) ∧
        out.length = 256 ∧
        out[0]? = some (min (List.replicate 300 65).length 255) ∧
        (out.drop 1).take (min (List.replicate 300 65).length 255) =
          (List.replicate 300 65).take (min (List.replicate 300 65).length 255) ∧
        (∀ j, min (List.replicate 300 65).length 255 < j →
          out[j]? = (List.replicate 256 1)[j]?) ∧
        (∀ e ∈ ev, ∃ k, e = MemEvent.write k ∧ k ≤ min (List.replicate 300 65).length 255)) ∧
      QTText_CopyCStringToPascal CStringPtr.null (List.replicate 256 1) =
        some ((List.replicate 256 1).set 0 0, [MemEvent.write 0])) ∧
    QTText_CopyCStringToPascal (CStringPtr.apart [72, 105, 0, 9]) [7, 7, 7, 7, 7, 7] =
      some ([2, 72, 105, 7, 7, 7],
        [MemEvent.write 1, MemEvent.write 2, MemEvent.write 0]) :=
  ⟨C11_copy_cstring_apart (List.replicate 300 65) [] (List.replicate 256 1)
      (fun b hb => by rw [List.eq_of_mem_replicate hb]; decide) (List.length_replicate 256 1),
    by decide⟩

theorem readsFresh_append_write (ev : List MemEvent) (k : Nat) :
    ∀ w, readsFresh w (ev ++ [MemEvent.write k]) = readsFresh w ev := by
  induction ev with
  | nil => intro w; rfl
  | cons e ev ih =>
    intro w
    cases e with
    | read i => simp only [List.cons_append, readsFresh, List.append_eq, ih]
    | write i => simp only [List.cons_append, readsFresh, List.append_eq, ih]

theorem copyInPlaceLoop_spec (s rest : List Nat) (hs : ∀ b ∈ s, b ≠ 0) (n : Nat)
    (hn : n = min s.length 255) :
    ∀ (fuel j c : Nat) (buf : List Nat), j ≤ n → j < 255 → 255 - j ≤ fuel →
      buf.length = (s ++ 0 :: rest).length →
      (s ++ 0 :: rest)[j]? = some c →
      (∀ k, 1 ≤ k → k ≤ j → buf[k]? = (s ++ 0 :: rest)[k - 1]?) →
      (∀ k, j < k → buf[k]? = (s ++ 0 :: rest)[k]?) →
      ∃ out ev, copyInPlaceLoop fuel (j + 1) (j + 1) (j : Int) c buf = some (out, (n : Int), ev) ∧
        out.length = (s ++ 0 :: rest).length ∧
        (∀ k, 1 ≤ k → k ≤ n → out[k]? = (s ++ 0 :: rest)[k - 1]?) ∧
        (∀ k, n < k → out[k]? = (s ++ 0 :: rest)[k]?) ∧
        (∀ w : List Nat, (∀ x ∈ w, x ≤ j) → readsFresh w ev = true) := by
  intro fuel
  induction fuel with
  | zero => intro j c buf _ h1 h2; omega
  | succ fuel ih =>
    intro j c buf hjn hj hfuel hlen hc hlow hhigh
    have hnl : n ≤ s.length := by omega
    have hn255 : n ≤ 255 := by omega
    have hlen2 : (s ++ 0 :: rest).length = s.length + 1 + rest.length := by
      simp only [List.length_append, List.length_cons]; omega
    by_cases hjs : j < s.length
    · obtain ⟨c0, hc1, hc2, _⟩ := cstring_get_lt s rest hs j hjs
      have hcc : c = c0 := by rw [hc1] at hc; exact (Option.some.inj hc).symm
      subst hcc
      have hsrc : j + 1 < (s ++ 0 :: rest).length := by omega
      have hread : buf[j + 1]? = some ((s ++ 0 :: rest)[j + 1]) := by
        rw [hhigh (j + 1) (by omega)]
        exact List.getElem?_eq_getElem hsrc
      have hdst : j + 1 < buf.length := by omega
      have hnext : (s ++ 0 :: rest)[j + 1]? = some ((s ++ 0 :: rest)[j + 1]) :=
        List.getElem?_eq_getElem hsrc
      have hlow2 : ∀ k, 1 ≤ k → k ≤ j + 1 →
          (buf.set (j + 1) c)[k]? = (s ++ 0 :: rest)[k - 1]? := by
        intro k hk1 hk2
        by_cases hkj : k = j + 1
        · subst hkj
          rw [List.getElem?_set_self hdst]
          simpa using hc.symm
        · rw [List.getElem?_set_ne (by omega)]
          exact hlow k hk1 (by omega)
      have hhigh2 : ∀ k, j + 1 < k → (buf.set (j + 1) c)[k]? = (s ++ 0 :: rest)[k]? := by
        intro k hk
        rw [List.getElem?_set_ne (by omega)]
        exact hhigh k (by omega)
      have hfresh : ∀ w : List Nat, (∀ x ∈ w, x ≤ j) → j + 1 ∉ w := by
        intro w hw hm
        have := hw (j + 1) hm
        omega
      by_cases hlast : (j : Int) + 1 ≥ 255
      · have hj254 : j = 254 := by omega
        have hn2 : n = 255 := by omega
        refine ⟨buf.set (j + 1) c, [MemEvent.read (j + 1), MemEvent.write (j + 1)], ?_,
          by simp [hlen], ?_, ?_, ?_⟩
        · simp only [copyInPlaceLoop, hc2, ne_eq, not_false_eq_true, if_true, hread, hdst,
            hlast]
          congr 3
          omega
        · intro k hk1 hk2
          exact hlow2 k hk1 (by omega)
        · intro k hk
          exact hhigh2 k (by omega)
        · intro w hw
          simp [readsFresh, hfresh w hw]
      · have hcast : (j : Int) + 1 = ((j + 1 : Nat) : Int) := by push_cast; rfl
        obtain ⟨out, ev, h1, h2, h3, h4, h5⟩ :=
          ih (j + 1) ((s ++ 0 :: rest)[j + 1]) (buf.set (j + 1) c) (by omega) (by omega)
            (by omega) (by simp [hlen]) hnext hlow2 hhigh2
        refine ⟨out, MemEvent.read (j + 1) :: MemEvent.write (j + 1) :: ev, ?_, h2, h3, h4, ?_⟩
        · have hlast2 : ¬ (((j + 1 : Nat) : Int) ≥ 255) := by rw [← hcast]; exact hlast
          simp only [copyInPlaceLoop, hc2, ne_eq, not_false_eq_true, if_true, hread, hdst,
            hcast, hlast2, if_false, h1]
        · intro w hw
          have hw2 : ∀ x ∈ (j + 1) :: w, x ≤ j + 1 := by
            intro x hx
            rcases List.mem_cons.mp hx with hx | hx
            · omega
            · have := hw x hx; omega
          simp [readsFresh, hfresh w hw, h5 _ hw2]
    · have hjl : j = s.length := by omega
      have hnj : n = j := by omega
      have hc0 : c = 0 := by
        rw [hjl, cstring_get_end] at hc
        exact (Option.some.inj hc).symm
      refine ⟨buf, [], ?_, hlen, ?_, (fun k hk => hhigh k (by omega)), ?_⟩
      · simp [copyInPlaceLoop, hc0, hnj]
      · intro k hk1 hk2
        exact hlow k hk1 (by omega)
      · intro w _
        rfl

/-- What the branch for overlapping strings leaves in the buffer. -/
theorem copyInPlace_result (s rest : List Nat) (hs : ∀ b ∈ s, b ≠ 0) :
    ∃ out ev, QTText_CopyCStringToPascal CStringPtr.sameAsDst (s ++ 0 :: rest) =
        some (out, ev) ∧
      out.length = (s ++ 0 :: rest).length ∧
      out[0]? = some (min s.length 255) ∧
      (∀ j, 1 ≤ j → j ≤ min s.length 255 → out[j]? = (s ++ 0 :: rest)[j - 1]?) ∧
      (∀ j, min s.length 255 < j → out[j]? = (s ++ 0 :: rest)[j]?) ∧
      readsFresh [] ev = true := by
  have hpos : 0 < (s ++ 0 :: rest).length := by
    simp only [List.length_append, List.length_cons]; omega
  have hfirst : (s ++ 0 :: rest)[0]? = some ((s ++ 0 :: rest)[0]) :=
    List.getElem?_eq_getElem hpos
  obtain ⟨out, ev, h1, h2, h3, h4, h5⟩ :=
    copyInPlaceLoop_spec s rest hs (min s.length 255) rfl 255 0 ((s ++ 0 :: rest)[0])
      (s ++ 0 :: rest) (by omega) (by omega) (by omega) rfl hfirst
      (by intro k hk1 hk2; omega) (by intro k _; rfl)
  rw [Nat.cast_zero, Nat.zero_add] at h1
  have hout : 0 < out.length := by omega
  refine ⟨out.set 0 (min s.length 255), MemEvent.read 0 :: ev ++ [MemEvent.write 0], ?_,
    by simp [h2], ?_, ?_, ?_, ?_⟩
  · simp only [QTText_CopyCStringToPascal, hfirst, h1, hout, List.length_set, if_true]
    rw [toUChar_small _ (by omega)]
  · exact List.getElem?_set_self hout
  · intro j hj1 hj2
    rw [List.getElem?_set_ne (by omega)]
    exact h3 j hj1 hj2
  · intro j hj
    rw [List.getElem?_set_ne (by omega)]
    exact h4 j hj
  · rw [List.cons_append]
    simp only [readsFresh, readsFresh_append_write]
    simpa using h5 [] (by intro x hx; simp at hx)

/-- C19: for every buffer holding a C string `s` (bytes other than zero, then a zero
byte), `QTText_CopyCStringToPascal (buf, buf)` ends without a fault with
`buf[0] = min (L, 255)` and `buf[1..min (L, 255)]` the original bytes
`buf[0..min (L, 255) - 1]`: the same Pascal string as the branch for strings stored apart
produces from a copy of the buffer into any 256-byte destination, and no read of the
buffer is at an index written before. -/
theorem C19_copy_cstring_in_place (s rest dst : List Nat) (hs : ∀ b ∈ s, b ≠ 0)
    (hd : dst.length = 256) :
    ∃ out ev outApart evApart,
      QTText_CopyCStringToPascal CStringPtr.sameAsDst (s ++ 0 :: rest) = some (out, ev) ∧
      out[0]? = some (min s.length 255) ∧
      (out.drop 1).take (min s.length 255) = (s ++ 0 :: rest).take (min s.length 255) ∧
      QTText_CopyCStringToPascal (CStringPtr.apart (s ++ 0 :: rest)) dst =
        some (outApart, evApart) ∧
      out.take (min s.length 255 + 1) = outApart.take (min s.length 255 + 1) ∧
      readsFresh [] ev = true := by
  obtain ⟨out, ev, h1, _, h3, h4, _, h6⟩ := copyInPlace_result s rest hs
  obtain ⟨outA, evA, a1, _, a3, a4, _, _⟩ := copyApart_result s rest dst hs hd
  refine ⟨out, ev, outA, evA, h1, h3, pascal_take_eq out _ _ h4, a1, ?_, h6⟩
  apply List.ext_getElem?
  intro j
  by_cases hj : j < min s.length 255 + 1
  · rw [List.getElem?_take_of_lt hj, List.getElem?_take_of_lt hj]
    by_cases hj0 : j = 0
    · subst hj0
      rw [h3, a3]
    · rw [h4 j (by omega) (by omega), a4 j (by omega) (by omega)]
      exact List.getElem?_append_left (by omega)
  · rw [List.getElem?_take_eq_none (by omega), List.getElem?_take_eq_none (by omega)]

/-- C19, on a buffer holding 300 bytes and a zero, and on the buffer "Hi!". -/
theorem C19_copy_cstring_in_place_witness :
    (∃ out ev outApart evApart,
      QTText_CopyCStringToPascal CStringPtr.sameAsDst (List.replicate 300 65 ++ 0 :: []) =
        some (out, ev) ∧
      out[0]? = some (min (List.replicate 300 65).length 255) ∧
      (out.drop 1).take (min (List.replicate 300 65).length 255) =
        (List.replicate 300 65 ++ 0 :: []).take (min (List.replicate 300 65).length 255) ∧
      QTText_CopyCStringToPascal (CStringPtr.apart (List.replicate 300 65 ++ 0 :: []))
        (List.replicate 256 1) = some (outApart, evApart) ∧
      out.take (min (List.replicate 300 65).length 255 + 1) =
        outApart.take (min (List.replicate 300 65).length 255 + 1) ∧
      readsFresh [] ev = true) ∧
    QTText_CopyCStringToPascal CStringPtr.sameAsDst [72, 105, 33, 0, 9, 9] =
      some ([3, 72, 105, 33, 9, 9],
        [MemEvent.read 0, MemEvent.read 1, MemEvent.write 1, MemEvent.read 2,
          MemEvent.write 2, MemEvent.read 3, MemEvent.write 3, MemEvent.write 0]) :=
  ⟨C19_copy_cstring_in_place (List.replicate 300 65) [] (List.replicate 256 1)
      (fun b hb => by rw [List.eq_of_mem_replicate hb]; decide) (List.length_replicate 256 1),
    by decide⟩

/-! ## The samples `QTText_AddTextTrack` adds -/

theorem copyCString_some (p : CStringPtr) (stack : List Nat) (hp : IsCString p)
    (hstack : stack.length = 256) :
    ∃ out ev, QTText_CopyCStringToPascal p stack = some (out, ev) := by
  rcases hp with h | ⟨s, rest, hs, h⟩
  · subst h
    have hpos : 0 < stack.length := by omega
    refine ⟨stack.set 0 (toUChar 0), [] ++ [MemEvent.write 0], ?_⟩
    simp only [QTText_CopyCStringToPascal, hpos, if_true]
  · subst h
    obtain ⟨out, ev, h1, _⟩ := copyApart_result s rest stack hs hstack
    exact ⟨out, ev, h1⟩

theorem getMediaDuration_add (media : List TextSample) (data : List Nat) (d : Int) :
    GetMediaDuration (AddMediaSample media data d) = GetMediaDuration media + d := by
  simp [GetMediaDuration, AddMediaSample]

theorem addTextTrackLoop_layout (host : ByteOrder) (ms md dur : Int)
    (theStrings : List CStringPtr) (theFrames : List Int) (n : Nat) (stack : List Nat)
    (hf : n ≤ theFrames.length) (hs : n ≤ theStrings.length)
    (hstr : ∀ p ∈ theStrings, IsCString p) (hstack : stack.length = 256) :
    ∀ (k i : Nat) (media : List TextSample), i + k = n →
      ∃ items : List (Int × List Nat),
        items.map Prod.fst =
          ((theFrames.drop i).take k).map (textSampleDuration ms md dur) ∧
        addTextTrackLoop host ms md dur theStrings theFrames (n : Int) stack k (i : Int) media =
          some (media ++ layout (GetMediaDuration media) items) := by
  intro k
  induction k with
  | zero =>
    intro i media _
    exact ⟨[], by simp, by simp [addTextTrackLoop, layout]⟩
  | succ k ih =>
    intro i media hik
    have hlt : (i : Int) < (n : Int) := by omega
    have hif : i < theFrames.length := by omega
    have his : i < theStrings.length := by omega
    have hfr : theFrames[i]? = some theFrames[i] := List.getElem?_eq_getElem hif
    have hst : theStrings[i]? = some theStrings[i] := List.getElem?_eq_getElem his
    obtain ⟨out, ev, hcopy⟩ :=
      copyCString_some theStrings[i] stack (hstr _ (List.getElem_mem _)) hstack
    obtain ⟨items, hi1, hi2⟩ :=
      ih (i + 1)
        (AddMediaSample media (QTText_AddTextTrack_sample host out)
          (textSampleDuration ms md dur theFrames[i])) (by omega)
    rw [Nat.cast_add, Nat.cast_one] at hi2
    refine ⟨(textSampleDuration ms md dur theFrames[i], QTText_AddTextTrack_sample host out) ::
      items, ?_, ?_⟩
    · rw [List.drop_eq_getElem_cons hif, List.take_succ_cons, List.map_cons, List.map_cons, hi1]
    · simp only [addTextTrackLoop, hlt, if_true, Int.toNat_ofNat, hfr, hst, hcopy, hi2,
        getMediaDuration_add, layout]
      simp [AddMediaSample]

theorem layout_length (items : List (Int × List Nat)) :
    ∀ t0, (layout t0 items).length = items.length := by
  induction items with
  | nil => intro t0; rfl
  | cons a items ih => intro t0; simp [layout, ih]

theorem layout_durations (items : List (Int × List Nat)) :
    ∀ t0, (layout t0 items).map (fun s => s.duration) = items.map Prod.fst := by
  induction items with
  | nil => intro t0; rfl
  | cons a items ih => intro t0; simp [layout, ih]

theorem layout_start (items : List (Int × List Nat)) :
    ∀ (t0 : Int) (i : Nat), i < items.length →
      ((layout t0 items)[i]?).map (fun s => s.startTime) =
        some (t0 + (((layout t0 items).take i).map (fun s => s.duration)).sum) := by
  induction items with
  | nil => intro t0 i h; simp at h
  | cons a items ih =>
    intro t0 i h
    cases i with
    | zero => simp [layout]
    | succ i =>
      have := ih (t0 + a.1) i (by simpa using h)
      simp only [layout, List.getElem?_cons_succ, List.take_succ_cons, List.map_cons,
        List.sum_cons, this]
      congr 1
      omega

theorem layout_lower (items : List (Int × List Nat)) (hpos : ∀ a ∈ items, 0 < a.1) :
    ∀ (t0 : Int), ∀ s ∈ layout t0 items, t0 ≤ s.startTime := by
  induction items with
  | nil => intro t0 s hs; simp [layout] at hs
  | cons a items ih =>
    intro t0 s hs
    simp only [layout, List.mem_cons] at hs
    rcases hs with hs | hs
    · rw [hs]
    · have h1 := ih (fun b hb => hpos b (List.mem_cons_of_mem _ hb)) (t0 + a.1) s hs
      have h2 := hpos a (List.mem_cons_self _ _)
      omega

theorem layout_ordered (items : List (Int × List Nat)) (hpos : ∀ a ∈ items, 0 < a.1) :
    ∀ (t0 : Int),
      (layout t0 items).Pairwise (fun a b => a.startTime < b.startTime) ∧
        (layout t0 items).Pairwise (fun a b => a.startTime + a.duration ≤ b.startTime) := by
  induction items with
  | nil => intro t0; simp [layout]
  | cons a items ih =>
    intro t0
    have hrest := ih (fun b hb => hpos b (List.mem_cons_of_mem _ hb)) (t0 + a.1)
    have ha := hpos a (List.mem_cons_self _ _)
    have hlow := layout_lower items (fun b hb => hpos b (List.mem_cons_of_mem _ hb)) (t0 + a.1)
    simp only [layout, List.pairwise_cons]
    refine ⟨⟨?_, hrest.1⟩, ⟨?_, hrest.2⟩⟩
    · intro s hs
      have := hlow s hs
      omega
    · intro s hs
      exact hlow s hs

/-- With equal time scales and a product that fits 32 bits, the duration of a sample is
the frame duration times the frame count. -/
theorem textSampleDuration_same_scale (scale d f : Int) (hscale : 0 < scale) (hd : 0 < d)
    (hf : 0 < f) (hfit : d * f < 2147483648) :
    textSampleDuration scale scale d f = d * f := by
  have hpos : 0 < d * f := Int.mul_pos hd hf
  have h1 : toLong (d * f) = d * f := by unfold toLong; omega
  have h2 : toULong (d * f) = d * f := by unfold toULong; omega
  have h3 : ConvertTimeScale (d * f) scale scale = d * f := by
    unfold ConvertTimeScale
    exact Int.mul_ediv_cancel _ (by omega)
  unfold textSampleDuration
  simp only [h1, h2, h3]

/-- C17 (as amended): for every array of frame counts whose first `theNumFrames` elements
give, with the frame duration and the two time scales, durations that are positive as
`QTText_AddTextTrack` computes them, the media edits end without a fault and add exactly
`theNumFrames` samples, in array order, with those durations; sample `i` starts at the sum
of the durations of the samples before it, the start times strictly increase and no sample
overlaps a later one. -/
theorem C17_added_samples (host : ByteOrder) (movieTimeScale mediaTimeScale dur : Int)
    (theStrings : List CStringPtr) (theFrames : List Int) (n : Nat) (stack : List Nat)
    (hf : n ≤ theFrames.length) (hs : n ≤ theStrings.length)
    (hstr : ∀ p ∈ theStrings, IsCString p) (hstack : stack.length = 256)
    (hpos : ∀ f ∈ theFrames.take n, 0 < textSampleDuration movieTimeScale mediaTimeScale dur f) :
    ∃ media,
      QTText_AddTextTrack_media host movieTimeScale mediaTimeScale dur theStrings theFrames
        (n : Int) stack = some media ∧
      media.length = n ∧
      media.map (fun s => s.duration) =
        (theFrames.take n).map (textSampleDuration movieTimeScale mediaTimeScale dur) ∧
      (∀ i, i < n → (media[i]?).map (fun s => s.startTime) =
        some (((media.take i).map (fun s => s.duration)).sum)) ∧
      media.Pairwise (fun a b => a.startTime < b.startTime) ∧
      media.Pairwise (fun a b => a.startTime + a.duration ≤ b.startTime) := by
  obtain ⟨items, h1, h2⟩ :=
    addTextTrackLoop_layout host movieTimeScale mediaTimeScale dur theStrings theFrames n stack
      hf hs hstr hstack n 0 [] (by omega)
  rw [List.drop_zero] at h1
  have hlen : items.length = n := by
    have := congrArg List.length h1
    simp only [List.length_map, List.length_take] at this
    omega
  have hitems : ∀ a ∈ items, 0 < a.1 := by
    intro a ha
    have hmem : a.1 ∈ items.map Prod.fst := List.mem_map_of_mem Prod.fst ha
    rw [h1, List.mem_map] at hmem
    obtain ⟨f, hf1, hf2⟩ := hmem
    rw [← hf2]
    exact hpos f hf1
  have hord := layout_ordered items hitems 0
  refine ⟨layout 0 items, ?_, ?_, ?_, ?_, hord.1, hord.2⟩
  · unfold QTText_AddTextTrack_media
    rw [Int.toNat_ofNat]
    simpa [GetMediaDuration] using h2
  · rw [layout_length, hlen]
  · rw [layout_durations, h1]
  · intro i hi
    have := layout_start items 0 i (by omega)
    simpa using this

/-- C17, on three strings for 3, 1 and 2 frames of duration 20 with equal time scales. -/
theorem C17_added_samples_witness :
    ∃ media,
      QTText_AddTextTrack_media ByteOrder.little 600 600 20
        [CStringPtr.apart [72, 105, 0], CStringPtr.null, CStringPtr.apart [65, 0]] [3, 1, 2]
        ((3 : Nat) : Int) (List.replicate 256 0) = some media ∧
      media.length = 3 ∧
      media.map (fun s => s.duration) =
        (([3, 1, 2] : List Int).take 3).map (textSampleDuration 600 600 20) ∧
      (∀ i, i < 3 → (media[i]?).map (fun s => s.startTime) =
        some (((media.take i).map (fun s => s.duration)).sum)) ∧
      media.Pairwise (fun a b => a.startTime < b.startTime) ∧
      media.Pairwise (fun a b => a.startTime + a.duration ≤ b.startTime) :=
  C17_added_samples ByteOrder.little 600 600 20
    [CStringPtr.apart [72, 105, 0], CStringPtr.null, CStringPtr.apart [65, 0]] [3, 1, 2] 3
    (List.replicate 256 0) (by decide) (by decide)
    (by
      intro p hp
      simp only [List.mem_cons, List.mem_singleton, List.not_mem_nil, or_false] at hp
      rcases hp with h | h | h
      · exact Or.inr ⟨[72, 105], [], by decide, h⟩
      · exact Or.inl h
      · exact Or.inr ⟨[65], [], by decide, h⟩)
    (List.length_replicate 256 0) (by decide)

set_option maxRecDepth 100000 in
/-- C17 (as stated) fails: with a movie time scale of 600, a media time scale of 30, a
frame duration of 1 and the frame counts 1 and 1, all positive, both samples get the
duration 0 and both start at 0. -/
theorem C17_counterexample :
    textSampleDuration 600 30 1 1 = 0 ∧
      (QTText_AddTextTrack_media ByteOrder.little 600 30 1
        [CStringPtr.apart [72, 105, 0], CStringPtr.apart [65, 0]] [1, 1] 2
        (List.replicate 256 0)).map
          (fun media => media.map (fun s => (s.startTime, s.duration))) =
        some [(0, 0), (0, 0)] := by
  constructor
  · decide
  · rfl

/-! ## Removing text tracks -/

theorem firstOfType_eq (m : MovieRecord) (ty : Nat) :
    GetMovieIndTrackType m 1 ty movieTrackMediaType =
      ((m.tracks.filter (fun r => r.mediaType == ty)).head?).map (fun r => r.id) := by
  have hflag : (movieTrackMediaType / movieTrackEnabledOnly % 2 == 0) = true := by decide
  simp only [GetMovieIndTrackType, le_refl, if_true, Int.sub_self, Int.toNat_zero, hflag,
    Bool.true_or, Bool.and_true]
  cases m.tracks.filter (fun r => r.mediaType == ty) <;> simp

theorem dispose_tracks (m : MovieRecord) (t : Nat) :
    (DisposeMovieTrack (QTUtils_DeleteAllReferencesToTrack m (some t)) (some t)).tracks =
      (m.tracks.filter (fun r => r.id != t)).map (dropRefsTo t) := by
  simp only [DisposeMovieTrack, QTUtils_DeleteAllReferencesToTrack]
  rw [List.filter_map]
  rfl

theorem filter_type_map_dropRefs (l : List TrackRecord) (t : Nat) (p : Nat → Bool) :
    (l.map (dropRefsTo t)).filter (fun r => p r.mediaType) =
      (l.filter (fun r => p r.mediaType)).map (dropRefsTo t) := by
  rw [List.filter_map]
  rfl

theorem map_key_dropRefs (l : List TrackRecord) (t : Nat) :
    (l.map (dropRefsTo t)).map trackKey = l.map trackKey := by
  rw [List.map_map]
  rfl

theorem removeLoop_spec :
    ∀ (fuel : Nat) (m : MovieRecord), (m.tracks.map (fun r => r.id)).Nodup →
      (m.tracks.filter (fun r => r.mediaType == TextMediaType)).length < fuel →
      ∃ m2, removeAllTextTracksLoop fuel m
          (GetMovieIndTrackType m 1 TextMediaType movieTrackMediaType) = some m2 ∧
        m2.tracks.map trackKey =
          (m.tracks.filter (fun r => !(r.mediaType == TextMediaType))).map trackKey := by
  intro fuel
  induction fuel with
  | zero => intro m _ h; omega
  | succ fuel ih =>
    intro m hnd hfuel
    rw [firstOfType_eq]
    cases hl : m.tracks.filter (fun r => r.mediaType == TextMediaType) with
    | nil =>
      refine ⟨m, by simp [removeAllTextTracksLoop], ?_⟩
      have hall : ∀ r ∈ m.tracks, (!(r.mediaType == TextMediaType)) = true := by
        intro r hr
        have := List.filter_eq_nil_iff.mp hl r hr
        simpa using this
      rw [List.filter_eq_self.mpr hall]
    | cons r0 rest =>
      have hr0 : r0 ∈ m.tracks.filter (fun r => r.mediaType == TextMediaType) := by
        rw [hl]; exact List.mem_cons_self _ _
      have hr0m : r0 ∈ m.tracks := (List.mem_filter.mp hr0).1
      have hr0t : (r0.mediaType == TextMediaType) = true := (List.mem_filter.mp hr0).2
      have htracks := dispose_tracks m r0.id
      -- the identities stay distinct
      have hnd2 : ((DisposeMovieTrack (QTUtils_DeleteAllReferencesToTrack m (some r0.id))
          (some r0.id)).tracks.map (fun r => r.id)).Nodup := by
        rw [htracks, List.map_map]
        have hsub : ((m.tracks.filter (fun r => r.id != r0.id)).map
            ((fun r => r.id) ∘ dropRefsTo r0.id)).Sublist (m.tracks.map (fun r => r.id)) :=
          List.Sublist.map (fun r => r.id) (List.filter_sublist m.tracks)
        exact hnd.sublist hsub
      -- one text track less
      have hcount : ((DisposeMovieTrack (QTUtils_DeleteAllReferencesToTrack m (some r0.id))
          (some r0.id)).tracks.filter (fun r => r.mediaType == TextMediaType)).length <
          fuel := by
        rw [htracks, filter_type_map_dropRefs _ _ (fun x => x == TextMediaType),
          List.length_map, List.filter_filter]
        have hlt : (m.tracks.filter
            (fun r => (r.mediaType == TextMediaType) && (r.id != r0.id))).length <
            (m.tracks.filter (fun r => r.mediaType == TextMediaType)).length := by
          have hswap : m.tracks.filter
              (fun r => (r.mediaType == TextMediaType) && (r.id != r0.id)) =
              (m.tracks.filter (fun r => r.mediaType == TextMediaType)).filter
                (fun r => r.id != r0.id) := by
            rw [List.filter_filter]
            apply List.filter_congr
            intro r _
            exact Bool.and_comm _ _
          rw [hswap]
          apply List.length_filter_lt_length_iff_exists.mpr
          exact ⟨r0, hr0, by simp⟩
        omega
      obtain ⟨m2, h1, h2⟩ := ih _ hnd2 hcount
      refine ⟨m2, ?_, ?_⟩
      · simp only [List.head?_cons, Option.map_some', removeAllTextTracksLoop,
          Option.isSome_some, if_true]
        exact h1
      · rw [h2, htracks, filter_type_map_dropRefs _ _ (fun x => !(x == TextMediaType)),
          map_key_dropRefs, List.filter_filter]
        congr 1
        apply List.filter_congr
        intro r hr
        by_cases hrt : (r.mediaType == TextMediaType) = true
        · simp [hrt]
        · have hne : r.id ≠ r0.id := by
            intro he
            have hrr : r = r0 := by
              have h3 := find_of_mem m.tracks hnd r hr
              have h4 := find_of_mem m.tracks hnd r0 hr0m
              rw [he] at h3
              rw [h3] at h4
              exact Option.some.inj h4
            rw [hrr] at hrt
            exact hrt hr0t
          simp [hrt, hne]

/-- C13: for every movie (finitely many tracks, with distinct identities),
`QTText_RemoveIndTextTrack (window, kAllTextTracks)` ends as soon as the condition of its
loop may be evaluated once more than there are text tracks; afterwards the movie has no
track of text media type, the other tracks are all present in their original order, and
the result is `badTrackIndex` if and only if the movie had no text track (`noErr`
otherwise); with a `NULL` window object the result is `paramErr`. -/
theorem C13_remove_all_text_tracks (w : WindowObjectRecord) (m : MovieRecord) (fuel : Nat)
    (hm : w.fMovie = some m) (hnd : (m.tracks.map (fun r => r.id)).Nodup)
    (hfuel : (m.tracks.filter (fun r => r.mediaType == TextMediaType)).length < fuel) :
    (∃ err m2,
      QTText_RemoveIndTextTrack fuel (some w) kAllTextTracks =
        some (err, some { w with fMovie := some m2 }) ∧
      (∀ r ∈ m2.tracks, r.mediaType ≠ TextMediaType) ∧
      m2.tracks.map trackKey =
        (m.tracks.filter (fun r => !(r.mediaType == TextMediaType))).map trackKey ∧
      (err = OSErr.badTrackIndex ↔ ∀ r ∈ m.tracks, r.mediaType ≠ TextMediaType) ∧
      (err = OSErr.badTrackIndex ∨ err = OSErr.noErr)) ∧
    (∀ f i, QTText_RemoveIndTextTrack f none i = some (OSErr.paramErr, none)) := by
  refine ⟨?_, fun f i => rfl⟩
  obtain ⟨m2, h1, h2⟩ := removeLoop_spec fuel m hnd hfuel
  have hnotext : ∀ r ∈ m2.tracks, r.mediaType ≠ TextMediaType := by
    intro r hr
    have hk : trackKey r ∈ m2.tracks.map trackKey := List.mem_map_of_mem trackKey hr
    rw [h2, List.mem_map] at hk
    obtain ⟨r1, hr1, hkey⟩ := hk
    have hty : r1.mediaType = r.mediaType := by
      have := congrArg (fun k => k.2.1) hkey
      exact this
    have hp := (List.mem_filter.mp hr1).2
    rw [← hty]
    simpa using hp
  have hfirst := firstOfType_eq m TextMediaType
  cases hl : m.tracks.filter (fun r => r.mediaType == TextMediaType) with
  | nil =>
    rw [hl] at hfirst
    have hall : ∀ r ∈ m.tracks, r.mediaType ≠ TextMediaType := by
      intro r hr
      have := List.filter_eq_nil_iff.mp hl r hr
      simpa using this
    refine ⟨OSErr.badTrackIndex, m2, ?_, hnotext, h2, ⟨fun _ => hall, fun _ => rfl⟩,
      Or.inl rfl⟩
    rw [hfirst] at h1
    simp only [QTText_RemoveIndTextTrack, hm, if_true, hfirst, h1]
    rfl
  | cons r0 rest =>
    rw [hl] at hfirst
    have hr0 : r0 ∈ m.tracks.filter (fun r => r.mediaType == TextMediaType) := by
      rw [hl]; exact List.mem_cons_self _ _
    refine ⟨OSErr.noErr, m2, ?_, hnotext, h2, ⟨(fun h => by cases h), fun hall => ?_⟩,
      Or.inr rfl⟩
    · rw [hfirst] at h1
      simp only [QTText_RemoveIndTextTrack, hm, if_true, hfirst, h1]
      rfl
    · have h3 := hall r0 (List.mem_filter.mp hr0).1
      have h4 := (List.mem_filter.mp hr0).2
      simp at h4
      exact absurd h4 h3

/-- C13, on the example movie with one video track and two text tracks, and on a movie
without text track. -/
theorem C13_remove_all_text_tracks_witness :
    ((∃ err m2,
      QTText_RemoveIndTextTrack 3 (some (exampleWindow [3, 2] (some 2))) kAllTextTracks =
        some (err, some { exampleWindow [3, 2] (some 2) with fMovie := some m2 }) ∧
      (∀ r ∈ m2.tracks, r.mediaType ≠ TextMediaType) ∧
      m2.tracks.map trackKey =
        ((exampleMovie [3, 2]).tracks.filter
          (fun r => !(r.mediaType == TextMediaType))).map trackKey ∧
      (err = OSErr.badTrackIndex ↔
        ∀ r ∈ (exampleMovie [3, 2]).tracks, r.mediaType ≠ TextMediaType) ∧
      (err = OSErr.badTrackIndex ∨ err = OSErr.noErr)) ∧
    (∀ f i, QTText_RemoveIndTextTrack f none i = some (OSErr.paramErr, none))) ∧
    (QTText_RemoveIndTextTrack 3 (some (exampleWindow [3, 2] (some 2))) kAllTextTracks).map
        (fun r => (r.1, (movieAfter r).map (fun m2 => m2.tracks.map trackKey))) =
      some (OSErr.noErr, some [(1, VideoMediaType, true)]) ∧
    (QTText_RemoveIndTextTrack 1
        (some { exampleWindow [] none with
          fMovie := some (threeTrackMovie true [] true [] false []) }) kAllTextTracks).map
        (fun r => (r.1, (movieAfter r).map (fun m2 => m2.tracks.length))) =
      some (OSErr.badTrackIndex, some 3) :=
  ⟨C13_remove_all_text_tracks (exampleWindow [3, 2] (some 2)) (exampleMovie [3, 2]) 3 rfl
      (by decide) (by decide),
    by decide, by decide⟩

/-! ## Editing the text of the current sample -/

/-- An edit that passes every test of `QTText_EditText` returns with the window stamped
dirty, whatever the track holds. -/
theorem editText_dirty (env : EditEnv) (w : WindowObjectRecord) (a : ApplicationDataRecord)
    (track : EditTrack) (g : List Nat)
    (ha : w.fAppData = some a) (hd : env.dialog = true) (hok : env.myItem = kEditOKIndex)
    (hb : env.beginMediaEdits = OSErr.noErr) (hdel : env.deleteTrackSegment = OSErr.noErr)
    (hadd : env.textMediaAddTextSample = OSErr.noErr) :
    ∃ track2, QTText_EditText env (some w) (some track) g =
      some (some { w with fIsDirty := true }, some track2, env.editedText) := by
  simp only [QTText_EditText, QTFrame_GetAppDataFromWindowObject, ha, hd, if_true, hok, hb,
    hdel, hadd, ne_eq, not_true_eq_false, false_and, if_false]
  exact ⟨_, rfl⟩

/-- The function `QTText_RemoveIndTextTrack` never writes the dirty flag: whatever it
removes, the flag of the window object is the one it was called with. -/
theorem removeIndTextTrack_dirty (fuel : Nat) (w : WindowObjectRecord) (theIndex : Int)
    (r : OSErr × WindowObject)
    (h : QTText_RemoveIndTextTrack fuel (some w) theIndex = some r) :
    ∃ w2, r.2 = some w2 ∧ w2.fIsDirty = w.fIsDirty := by
  unfold QTText_RemoveIndTextTrack at h
  cases hm : w.fMovie with
  | none =>
    simp only [hm, Option.some.injEq] at h
    exact ⟨w, by rw [← h], rfl⟩
  | some m =>
    simp only [hm] at h
    by_cases hidx : theIndex = kAllTextTracks
    · simp only [hidx, if_true] at h
      cases hl : removeAllTextTracksLoop fuel m
          (GetMovieIndTrackType m 1 TextMediaType movieTrackMediaType) with
      | none => simp [hl] at h
      | some m2 =>
        simp only [hl, Option.some.injEq] at h
        exact ⟨{ w with fMovie := some m2 }, by rw [← h], rfl⟩
    · simp only [hidx, if_false] at h
      by_cases hnone : (GetMovieIndTrackType m theIndex TextMediaType
          movieTrackMediaType).isNone = true
      · simp only [hnone, if_true, Option.some.injEq] at h
        exact ⟨w, by rw [← h], rfl⟩
      · simp only [hnone, Bool.false_eq_true, if_false, Option.some.injEq] at h
        subst h
        exact ⟨_, rfl, rfl⟩

/-- C12 (as amended): `QTText_EditText`, when the user confirms with OK and the edit
succeeds, and `QTText_SetTextTrackAsChapterTrack`, when it reaches the step that adds or
deletes a reference, leave the dirty flag of the window object set;
`QTText_RemoveIndTextTrack` leaves the flag as it was before the call, whatever it
disposes. -/
theorem C12_dirty_flag :
    (∀ (env : EditEnv) (w : WindowObjectRecord) (a : ApplicationDataRecord)
        (track : EditTrack) (pre post : List EditSample) (cur : EditSample) (g : List Nat),
      w.fAppData = some a → env.dialog = true → env.myItem = kEditOKIndex →
      env.beginMediaEdits = OSErr.noErr → env.deleteTrackSegment = OSErr.noErr →
      env.textMediaAddTextSample = OSErr.noErr →
      track.samples = pre ++ cur :: post →
      (∀ s ∈ track.samples, 0 < s.duration) →
      track.samples.Pairwise (fun a b => a.startTime + a.duration ≤ b.startTime) →
      (cur.startTime ≤ env.movieTime ∧ env.movieTime < cur.startTime + cur.duration) →
      ∃ w2 track2 g2, QTText_EditText env (some w) (some track) g =
          some (some w2, track2, g2) ∧ w2.fIsDirty = true) ∧
    (∀ (w : WindowObjectRecord) (a : ApplicationDataRecord) (m : MovieRecord)
        (mc theType c t : Nat) (isChapterTrack : Bool),
      w.fAppData = some a → w.fMovie = some m → w.fController = some mc →
      GetMovieIndTrackType m 1 theType (movieTrackMediaType ||| movieTrackEnabledOnly) =
        some c →
      a.fTextTrack = some t →
      ∃ w2, (QTText_SetTextTrackAsChapterTrack (some w) theType isChapterTrack).2 = some w2 ∧
        w2.fIsDirty = true) ∧
    (∀ (fuel : Nat) (w : WindowObjectRecord) (theIndex : Int) (r : OSErr × WindowObject),
      QTText_RemoveIndTextTrack fuel (some w) theIndex = some r →
      ∃ w2, r.2 = some w2 ∧ w2.fIsDirty = w.fIsDirty) := by
  refine ⟨?_, ?_, removeIndTextTrack_dirty⟩
  · intro env w a track pre post cur g ha hd hok hb hdel hadd hsamples hpos hno hcur
    obtain ⟨track2, h⟩ := editText_dirty env w a track g ha hd hok hb hdel hadd
    exact ⟨_, _, _, h, rfl⟩
  · intro w a m mc theType c t isChapterTrack ha hm hmc hc ht
    cases isChapterTrack with
    | true =>
      rw [setChapterTrack_true w a m mc theType c t ha hm hmc hc ht]
      exact ⟨_, rfl, rfl⟩
    | false =>
      rw [setChapterTrack_false w a m mc theType c t ha hm hmc hc ht]
      by_cases hrefs : chapterRefsOf m c ≠ []
      · rw [if_pos hrefs]
        exact ⟨_, rfl, rfl⟩
      · rw [if_neg hrefs]
        exact ⟨_, rfl, rfl⟩

/-- C12, on the example window (dirty flag clear): an edit and a new chapter track each
leave the flag set, the removal of both text tracks leaves it clear. -/
theorem C12_dirty_flag_witness :
    (∃ w2 track2 g2, QTText_EditText exampleEditEnv (some (exampleWindow [] (some 2)))
        (some exampleEditTrack) [0] = some (some w2, track2, g2) ∧ w2.fIsDirty = true) ∧
    (∃ w2, (QTText_SetTextTrackAsChapterTrack (some (exampleWindow [] (some 2)))
        VideoMediaType true).2 = some w2 ∧ w2.fIsDirty = true) ∧
    (∃ w2, (OSErr.noErr, some { exampleWindow [] (some 2) with
        fMovie := some { tracks := [{ id := 1, mediaType := VideoMediaType, enabled := true,
                                      chapterRefs := [] }] } }).2 = some w2 ∧
      w2.fIsDirty = (exampleWindow [] (some 2)).fIsDirty) :=
  ⟨C12_dirty_flag.1 exampleEditEnv (exampleWindow [] (some 2))
      { fMovieHasText := true, fTextIsChapter := false, fTextIsHREF := false,
        fTextTrack := some 2, fTextHandler := none }
      exampleEditTrack
      [{ startTime := 0, duration := 200, mediaTime := 0, mediaDuration := 10,
         text := [73, 110, 116, 114, 111],
         display := { textBox := { top := 0, left := 0, bottom := 20, right := 80 },
                      justification := 0, displayFlags := 0 } }]
      [{ startTime := 500, duration := 400, mediaTime := 25, mediaDuration := 20,
         text := [67, 104, 97, 112, 116, 101, 114, 32, 50],
         display := { textBox := { top := 0, left := 0, bottom := 20, right := 80 },
                      justification := 0, displayFlags := 0 } }]
      { startTime := 200, duration := 300, mediaTime := 10, mediaDuration := 15,
        text := [67, 104, 97, 112, 116, 101, 114, 32, 49],
        display := { textBox := { top := 0, left := 0, bottom := 20, right := 80 },
                     justification := 0, displayFlags := 0 } }
      [0] rfl rfl rfl rfl rfl rfl rfl (by decide) (by decide) (by decide),
    C12_dirty_flag.2.1 (exampleWindow [] (some 2))
      { fMovieHasText := true, fTextIsChapter := false, fTextIsHREF := false,
        fTextTrack := some 2, fTextHandler := none }
      (exampleMovie []) 0 VideoMediaType 1 2 true rfl rfl rfl (by decide) rfl,
    C12_dirty_flag.2.2 3 (exampleWindow [] (some 2)) kAllTextTracks _ (by decide)⟩

/-- C12 (as stated) fails: on the example window with the dirty flag clear,
`QTText_RemoveIndTextTrack (window, kAllTextTracks)` returns `noErr`, disposes both text
tracks (one track is left) and leaves the dirty flag clear. -/
theorem C12_counterexample :
    (exampleWindow [3, 2] (some 2)).fIsDirty = false ∧
      (QTText_RemoveIndTextTrack 3 (some (exampleWindow [3, 2] (some 2))) kAllTextTracks).map
        (fun r => (r.1, r.2.map (fun w2 =>
          (w2.fIsDirty, w2.fMovie.map (fun m => m.tracks.map (fun t => t.id)))))) =
      some (OSErr.noErr, some (false, some [1])) := by
  decide

end QTText
